import Mathlib

/-!
# Verification of the dax-orchestrator pipeline core

Shallow embedding, in Lean 4, of the data-normalisation / enrichment /
orchestration core of the `dax-orchestrator` repository, together with
proofs and refutations of the specification's testable properties.

Conventions used throughout:

* JavaScript strings are modelled as Lean `String` (a list of characters);
  the only character operations the analysed code performs are ASCII
  case-mapping, trimming and comparisons, which agree with Lean's
  `Char.toLower`/`Char.toUpper` on the ASCII range.
* Every regular expression of the source is transliterated into an explicit
  character-level scanner.  Each scanner carries a doc comment quoting the
  original pattern; greedy quantifiers are resolved deterministically
  exactly where the pattern makes backtracking impossible (the character
  following a greedy class run is excluded from the class), and an explicit
  backtracking loop is used where it is not (noted at each site).
* Dynamically-typed JavaScript values are modelled by the inductive `JVal`
  (JSON values plus `undefined`); JS truthiness, `||`-coalescing, property
  access and `Number`/`String` coercion are defined on it.
* JS numbers are modelled as `Option JsNum` (`none` = NaN), where `JsNum`
  is an exact fraction held in lowest terms by its smart constructor
  `mkJsNum`.  All numerals in the analysed code paths are exact terminating
  decimals, where exact-fraction and IEEE-754 semantics coincide for the
  operations performed (counting, comparison, weighted averages of small
  decimals).
* Asynchronous stage execution is modelled by `Except`-valued outcomes: a
  settled promise is either `.ok` (fulfilled) or `.error` (rejected).
-/

/-! ## JS character and string primitives -/

/-- Whitespace as matched by JS `trim()` / regex `\s` (ASCII part; the
analysed code never manipulates non-ASCII whitespace). -/
def jsWs (c : Char) : Bool :=
  c = ' ' || c = '\t' || c = '\n' || c = '\r' || c = '\x0b' || c = '\x0c'

/-- Regex word character `\w` = `[A-Za-z0-9_]`. -/
def isWordChar (c : Char) : Bool :=
  ('A' ≤ c && c ≤ 'Z') || ('a' ≤ c && c ≤ 'z') || ('0' ≤ c && c ≤ '9') || c = '_'

/-- Regex `\d`. -/
def isDigitChar (c : Char) : Bool := '0' ≤ c && c ≤ '9'

def isUpperChar (c : Char) : Bool := 'A' ≤ c && c ≤ 'Z'

def isLowerOrDigit (c : Char) : Bool := ('a' ≤ c && c ≤ 'z') || ('0' ≤ c && c ≤ '9')

/-- Word-character test on an optional previous character (for `\b`). -/
def isWordO : Option Char → Bool
  | some c => isWordChar c
  | none => false

/-- JS `String.prototype.trim()` on a character list. -/
def jsTrimL (l : List Char) : List Char :=
  ((l.dropWhile jsWs).reverse.dropWhile jsWs).reverse

/-- JS `String.prototype.trim()`. -/
def strTrim (s : String) : String := ⟨jsTrimL s.data⟩

/-- JS `String.prototype.toLowerCase()` (ASCII). -/
def lowerS (s : String) : String := ⟨s.data.map Char.toLower⟩

/-- JS `String.prototype.toUpperCase()` (ASCII). -/
def upperS (s : String) : String := ⟨s.data.map Char.toUpper⟩

/-- Substring containment on character lists (semantics of an unanchored
regex literal, and of JS `String.prototype.includes`). -/
def containsL (n : List Char) : List Char → Bool
  | [] => n.isEmpty
  | c :: cs => n.isPrefixOf (c :: cs) || containsL n cs

/-- JS `hay.includes(needle)`. -/
def containsS (needle hay : String) : Bool := containsL needle.data hay.data

/-- Consume regex `\s*` (greedy; every use site is followed by a
non-whitespace requirement, so the maximal run is the unique choice). -/
def dropWsL (l : List Char) : List Char := l.dropWhile jsWs

/-- Consume a literal; `none` when the input does not start with it. -/
def litL? (s : List Char) (l : List Char) : Option (List Char) :=
  if s.isPrefixOf l then some (l.drop s.length) else none

/-- Consume one expected character. -/
def chL? (c : Char) : List Char → Option (List Char)
  | c' :: t => if c' = c then some t else none
  | [] => none

/-- Head character is `c`. -/
def headIs (c : Char) : List Char → Bool
  | c' :: _ => c' = c
  | [] => false

/-- The next position is a word boundary after a word character
(i.e. trailing `\b`): end of input or a non-word character. -/
def notWordHead : List Char → Bool
  | [] => true
  | c :: _ => !isWordChar c

/-- Consume a greedy nonempty class run `[p]+`.  Only valid (and only used)
where the following pattern element cannot match a `p`-character, so the
maximal run is the unique backtracking outcome. -/
def plusRun (p : Char → Bool) (l : List Char) : Option (List Char) :=
  if (l.takeWhile p).isEmpty then none else some (l.dropWhile p)

/-- Consume a greedy (possibly empty) class run `[p]*` under the same
no-backtracking side condition as `plusRun`. -/
def starRun (p : Char → Bool) (l : List Char) : List Char :=
  l.dropWhile p

/-- Backtracking for `[class]+c` where `c` itself belongs to the class:
try every split point from the greedy (rightmost) one leftwards, requiring
at least one class character before `c`, and hand the remainder to the
continuation `k`.  `rev` is the reversed remaining run, `acc` the input
already given back (in original order, ending with the tail after the run). -/
def backSplitsK (c : Char) (k : List Char → Bool) : List Char → List Char → Bool
  | [], _ => false
  | c' :: rs, acc =>
    (c' = c && !rs.isEmpty && k acc) || backSplitsK c k rs (c' :: acc)

/-- `[p]+` followed by literal `c` (with `c` possibly inside the class),
then continuation `k`, with full regex backtracking over the split point. -/
def plusThenChK (p : Char → Bool) (c : Char) (k : List Char → Bool)
    (l : List Char) : Bool :=
  let run := l.takeWhile p
  let rest := l.dropWhile p
  if run.isEmpty then false
  else
    (match rest with
     | c' :: t => c' = c && k t
     | [] => false) || backSplitsK c k run.reverse rest

/-- Search `f` at every start position whose previous character satisfies
the `\b`-before-a-word-character condition (previous char absent or
non-word).  This is regex `test` for patterns of shape `\bX…` where `X`
is a word character. -/
def searchWB (f : List Char → Bool) : Option Char → List Char → Bool
  | prev, [] => !isWordO prev && f []
  | prev, c :: t => (!isWordO prev && f (c :: t)) || searchWB f (some c) t

/-- Plain leftmost search of a position test (regex `test` without a
leading boundary). -/
def searchL (f : List Char → Bool) : List Char → Bool
  | [] => f []
  | c :: t => f (c :: t) || searchL f t

/-- Leftmost search returning a value (regex `match` with captures). -/
def searchO {α : Type} (f : List Char → Option α) : List Char → Option α
  | [] => f []
  | c :: t =>
    match f (c :: t) with
    | some a => some a
    | none => searchO f t

/-! ## measure-heuristics.ts -/

namespace MeasureHeuristics

/-- `kind` values of `HeuristicMeasureOutput` in src/src/lib/measure-heuristics.ts
(`'count' | 'sum' | 'avg' | 'ratio' | 'percent' | 'time-intel' | 'windowed' | 'other'`). -/
inductive MKind where
  | count | sum | avg | ratio | percent | timeIntel | windowed | other
deriving DecidableEq, Repr

/-- `/%|PCT|PERCENT/.test(n)` — unanchored alternation of literals, i.e.
substring containment of any of the three alternatives. -/
def percentNameTest (n : String) : Bool :=
  containsS "%" n || containsS "PCT" n || containsS "PERCENT" n

/-- `/\bDIVIDE\s*\(/.test(e)`. -/
def divideCallTest (e : String) : Bool :=
  searchWB
    (fun l =>
      match litL? "DIVIDE".data l with
      | some r => headIs '(' (dropWsL r)
      | none => false)
    none e.data

/-- `/\b100\b/.test(e)`. -/
def hundredTest (e : String) : Bool :=
  searchWB
    (fun l =>
      match litL? "100".data l with
      | some r => notWordHead r
      | none => false)
    none e.data

/-- `/\bAVERAGE|AVERAGEX\b/.test(e)` — alternation binds loosely, so this
is `(\bAVERAGE)` or `(AVERAGEX\b)`. -/
def averageTestE (e : String) : Bool :=
  searchWB (fun l => (litL? "AVERAGE".data l).isSome) none e.data ||
  searchL
    (fun l =>
      match litL? "AVERAGEX".data l with
      | some r => notWordHead r
      | none => false)
    e.data

/-- `/\bAVG\b/.test(n)` (note: `n` is lower-cased by the caller, so this
test can in fact never fire; transliterated faithfully all the same). -/
def avgNameTest (n : String) : Bool :=
  searchWB
    (fun l =>
      match litL? "AVG".data l with
      | some r => notWordHead r
      | none => false)
    none n.data

/-- `/\bCOUNT|COUNTX|DISTINCTCOUNT\b/.test(e)` — three top-level
alternatives: `\bCOUNT`, bare `COUNTX`, `DISTINCTCOUNT\b`. -/
def countTestE (e : String) : Bool :=
  searchWB (fun l => (litL? "COUNT".data l).isSome) none e.data ||
  containsS "COUNTX" e ||
  searchL
    (fun l =>
      match litL? "DISTINCTCOUNT".data l with
      | some r => notWordHead r
      | none => false)
    e.data

/-- `/\bcount\b/.test(n)`. -/
def countNameTest (n : String) : Bool :=
  searchWB
    (fun l =>
      match litL? "count".data l with
      | some r => notWordHead r
      | none => false)
    none n.data

/-- `/\bSUM|SUMX\b/.test(e)` — `(\bSUM)` or `(SUMX\b)`. -/
def sumTestE (e : String) : Bool :=
  searchWB (fun l => (litL? "SUM".data l).isSome) none e.data ||
  searchL
    (fun l =>
      match litL? "SUMX".data l with
      | some r => notWordHead r
      | none => false)
    e.data

/-- `/\btotal|sum\b/.test(n)` — `(\btotal)` or `(sum\b)`. -/
def totalSumNameTest (n : String) : Bool :=
  searchWB (fun l => (litL? "total".data l).isSome) none n.data ||
  searchL
    (fun l =>
      match litL? "sum".data l with
      | some r => notWordHead r
      | none => false)
    n.data

/-- `/\bDATESINPERIOD|SAMEPERIODLASTYEAR|DATEADD|PARALLELPERIOD\b/.test(e)`
— four top-level alternatives, only the first anchored by `\b` on the
left and only the last on the right. -/
def timeIntelTestE (e : String) : Bool :=
  searchWB (fun l => (litL? "DATESINPERIOD".data l).isSome) none e.data ||
  containsS "SAMEPERIODLASTYEAR" e ||
  containsS "DATEADD" e ||
  searchL
    (fun l =>
      match litL? "PARALLELPERIOD".data l with
      | some r => notWordHead r
      | none => false)
    e.data

/-- `inferKind` (measure-heuristics.ts lines 27–38).  `n` is the
lower-cased name, `e` the upper-cased expression; `&&` binds tighter than
`||` in the percent condition.  Lean argument `expression` is `Option`
because the TS field is optional; `(m.expression || '')` is `.getD ""`
(the `name` side needs no guard: lower-casing the name directly agrees
with lower-casing `(m.name || '')` for every string `name`). -/
def inferKind (name : String) (expression : Option String) : MKind :=
  let n := lowerS name
  let e := upperS (expression.getD "")
  if percentNameTest n || (divideCallTest e && hundredTest e) then .percent
  else if divideCallTest e then .ratio
  else if averageTestE e || avgNameTest n then .avg
  else if countTestE e || countNameTest n then .count
  else if sumTestE e || totalSumNameTest n then .sum
  else if timeIntelTestE e then .timeIntel
  else .other

/-- Decimal digit run to a natural number. -/
def digitsToNat (l : List Char) : Nat :=
  l.foldl (fun acc c => acc * 10 + (c.toNat - '0'.toNat)) 0

/-- Attempt of
`/DATESINPERIOD\([^,]+,\s*[^,]+,\s*-\s*(\d+)\s*,\s*(DAY|MONTH|YEAR|WEEK)\)/`
at one start position, returning the two captures.  `\s*[^,]+` consumes,
together with the following `,`, exactly the (nonempty) segment up to the
next comma — whitespace is itself a `[^,]` character, so the combined
pattern is equivalent to `[^,]+,`.  The digit run and the unit literal
admit no backtracking (their followers are not digits / letters). -/
def dipAt (l : List Char) : Option (String × String) := do
  let r ← litL? "DATESINPERIOD(".data l
  let r ← plusRun (fun c => c ≠ ',') r
  let r ← chL? ',' r
  let r ← plusRun (fun c => c ≠ ',') r
  let r ← chL? ',' r
  let r := dropWsL r
  let r ← chL? '-' r
  let r := dropWsL r
  let ds := r.takeWhile isDigitChar
  if ds.isEmpty then none else
  let r := r.dropWhile isDigitChar
  let r := dropWsL r
  let r ← chL? ',' r
  let r := dropWsL r
  let tryUnit := fun (u : String) (rest : List Char) =>
    match litL? u.data rest with
    | some r' => if headIs ')' r' then some u else none
    | none => none
  match tryUnit "DAY" r with
  | some u => some (⟨ds⟩, u)
  | none =>
  match tryUnit "MONTH" r with
  | some u => some (⟨ds⟩, u)
  | none =>
  match tryUnit "YEAR" r with
  | some u => some (⟨ds⟩, u)
  | none =>
  match tryUnit "WEEK" r with
  | some u => some (⟨ds⟩, u)
  | none => none

/-- `/DATEADD\([^,]+,\s*-1\s*,\s*UNIT\)/.test(e)` for a given unit. -/
def dateAddMinus1Test (unit : String) (e : String) : Bool :=
  searchL
    (fun l =>
      (do
        let r ← litL? "DATEADD(".data l
        let r ← plusRun (fun c => c ≠ ',') r
        let r ← chL? ',' r
        let r := dropWsL r
        let r ← litL? "-1".data r
        let r := dropWsL r
        let r ← chL? ',' r
        let r := dropWsL r
        litL? (unit ++ ")").data r).isSome)
    e.data

/-- `extractWindow` (measure-heuristics.ts lines 41–49). -/
def extractWindow (expression : Option String) : Option String :=
  let e := upperS (expression.getD "")
  match searchO dipAt e.data with
  | some (ds, unit) =>
    some ("Last " ++ ds ++ " " ++ unit ++ (if digitsToNat ds.data > 1 then "s" else ""))
  | none =>
  if containsS "SAMEPERIODLASTYEAR" e || dateAddMinus1Test "YEAR" e then some "Year over Year"
  else if dateAddMinus1Test "MONTH" e then some "Month over Month"
  else if dateAddMinus1Test "WEEK" e then some "Week over Week"
  else none

/-- One attempt of `/([A-Za-z0-9_]+)\[([^\]]+)\]/` at a position,
returning the whole match text and the rest of the input.  The word run
must be maximal (a shorter prefix is followed by a word character, not
`[`), and `[^\]]+` excludes its follower `]`, so the parse is
deterministic. -/
def tryColRef (l : List Char) : Option (List Char × List Char) :=
  let run := l.takeWhile isWordChar
  if run.isEmpty then none else
  match chL? '[' (l.dropWhile isWordChar) with
  | none => none
  | some r =>
    let q := r.takeWhile (fun c => c ≠ ']')
    if q.isEmpty then none else
    match chL? ']' (r.dropWhile (fun c => c ≠ ']')) with
    | none => none
    | some rest => some (run ++ '[' :: q ++ [']'], rest)

/-- The negative lookahead `(?!\s*Measures?\s*\])` of the measure-reference
pattern: its body `\s*Measures?\s*\]` matches greedily (`s?` tries the
`s` first; when the optional `s` is present but not taken, the following
`\s*\]` cannot match the letter `s`, so the two branches below are the
exact backtracking order). -/
def measuresLook (t : List Char) : Bool :=
  match litL? "Measure".data (dropWsL t) with
  | none => false
  | some r =>
    (match r with
     | 's' :: r2 => headIs ']' (dropWsL r2) || headIs ']' (dropWsL r)
     | _ => headIs ']' (dropWsL r))

/-- One attempt of `/\[(?!\s*Measures?\s*\])([^\]]+)\]/` at a position. -/
def tryMeasRef (l : List Char) : Option (List Char × List Char) :=
  match chL? '[' l with
  | none => none
  | some t =>
    if measuresLook t then none else
    let q := t.takeWhile (fun c => c ≠ ']')
    if q.isEmpty then none else
    match chL? ']' (t.dropWhile (fun c => c ≠ ']')) with
    | none => none
    | some rest => some ('[' :: q ++ [']'], rest)

/-- `matchAll` driver: leftmost match, then continue after the match end.
Fuel is the input length; every step consumes at least one character, so
the fuel never runs out on the initial call. -/
def scanAllF (try1 : List Char → Option (List Char × List Char)) :
    Nat → List Char → List (List Char)
  | 0, _ => []
  | _, [] => []
  | fuel + 1, c :: t =>
    match try1 (c :: t) with
    | some (m, rest) => m :: scanAllF try1 fuel rest
    | none => scanAllF try1 fuel t

/-- JS `new Set(list)` iteration order: first occurrences, in order. -/
def jsSetDedup (l : List String) : List String := go [] l
where
  go (seen : List String) : List String → List String
    | [] => []
    | x :: xs => if x ∈ seen then go seen xs else x :: go (x :: seen) xs

/-- `extractDependencies` (measure-heuristics.ts lines 52–57): all
`Table[Column]` matches, then all `[Measure]` matches, de-duplicated with
`new Set` (first occurrence wins). -/
def extractDependencies (expression : Option String) : List String :=
  let e := (expression.getD "").data
  let cols := (scanAllF tryColRef e.length e).map fun l => (⟨l⟩ : String)
  let meas := (scanAllF tryMeasRef e.length e).map fun l => (⟨l⟩ : String)
  jsSetDedup (cols ++ meas)

/-- `/\b\/\b/.test(e)` — `/` is not a word character, so both boundaries
require an adjacent word character: a word char immediately before and
after the slash. -/
def bareSlashTest (e : String) : Bool := go none e.data
where
  go : Option Char → List Char → Bool
    | _, [] => false
    | prev, c :: t =>
      (c = '/' && isWordO prev && (match t with
        | c' :: _ => isWordChar c'
        | [] => false)) || go (some c) t

/-- Continuation of the AVERAGEX-risk pattern after its comma:
`\s*\[[^\]]+\]\s*\)`. -/
def avgxRiskTail (l : List Char) : Bool :=
  (do
    let r ← chL? '[' (dropWsL l)
    let r ← plusRun (fun c => c ≠ ']') r
    let r ← chL? ']' r
    chL? ')' (dropWsL r)).isSome

/-- `/\bAVERAGEX\s*\([^)]+,\s*\[[^\]]+\]\s*\)/.test(e)` (measure-heuristics
risk 2).  The comma terminating `[^)]+` is itself a `[^)]` character, so
backtracking over the split point is required (`plusThenChK`). -/
def avgxOverMeasureRisk (e : String) : Bool :=
  searchWB
    (fun l =>
      match litL? "AVERAGEX".data l with
      | some r =>
        match chL? '(' (dropWsL r) with
        | some r2 => plusThenChK (fun c => c ≠ ')') ',' avgxRiskTail r2
        | none => false
      | none => false)
    none e.data

/-- `/\bCOUNTAX\s*\([^)]+,\s*TRUE\s*\)/.test(e)` (risk 3); same
backtracking structure as the AVERAGEX risk. -/
def countaxTrueRisk (e : String) : Bool :=
  searchWB
    (fun l =>
      match litL? "COUNTAX".data l with
      | some r =>
        match chL? '(' (dropWsL r) with
        | some r2 =>
          plusThenChK (fun c => c ≠ ')') ','
            (fun t =>
              (do
                let r3 ← litL? "TRUE".data (dropWsL t)
                chL? ')' (dropWsL r3)).isSome)
            r2
        | none => false
      | none => false)
    none e.data

/-- `/\bMAX\([^)]+\)\s*,\s*-?\d+\s*,\s*(DAY|MONTH|YEAR|WEEK)\)/.test(e)`
(risk 4, first conjunct).  `[^)]+` excludes its follower `)`; the digit
run and unit literal are determinate. -/
def maxAnchorRisk (e : String) : Bool :=
  searchWB
    (fun l =>
      (do
        let r ← litL? "MAX(".data l
        let r ← plusRun (fun c => c ≠ ')') r
        let r ← chL? ')' r
        let r ← chL? ',' (dropWsL r)
        let r := dropWsL r
        let r := match chL? '-' r with
          | some r' => r'
          | none => r
        let r ← plusRun isDigitChar r
        let r ← chL? ',' (dropWsL r)
        let r := dropWsL r
        let tryU := fun (u : String) =>
          match litL? u.data r with
          | some r' => headIs ')' r'
          | none => false
        if tryU "DAY" || tryU "MONTH" || tryU "YEAR" || tryU "WEEK" then some () else none).isSome)
    none e.data

/-- `/\bRELATED\(/.test(e)` (risk 5). -/
def relatedRisk (e : String) : Bool :=
  searchWB (fun l => (litL? "RELATED(".data l).isSome) none e.data

/-- `/\bIF\s*\(/.test(e)` (risk 6, first conjunct). -/
def ifCallTest (e : String) : Bool :=
  searchWB
    (fun l =>
      match litL? "IF".data l with
      | some r => headIs '(' (dropWsL r)
      | none => false)
    none e.data

/-- `/\bISBLANK|ISNUMBER|VALUE|SELECTEDVALUE|HASONEVALUE/.test(e)` (risk 6,
second conjunct) — only the first alternative carries the `\b`. -/
def guardFnTest (e : String) : Bool :=
  searchWB (fun l => (litL? "ISBLANK".data l).isSome) none e.data ||
  containsS "ISNUMBER" e || containsS "VALUE" e ||
  containsS "SELECTEDVALUE" e || containsS "HASONEVALUE" e

/-- The six risk messages of `detectRisks`, in rule order. -/
def riskMsg1 : String := "Division operator used without DIVIDE(); may cause divide-by-zero errors."
def riskMsg2 : String := "AVERAGEX over a measure may yield unintended results; ensure row-level expression."
def riskMsg3 : String := "COUNTAX with TRUE() counts all rows; COUNTROWS() may be clearer and faster."
def riskMsg4 : String := "Time-intel anchored on MAX() can drift; confirm intended end-of-period anchor."
def riskMsg5 : String := "RELATED() inside measures can be fragile; verify relationship direction and context."
def riskMsg6 : String := "IF() without guard conditions could mis-handle blanks or multi-selects."

/-- `detectRisks` (measure-heuristics.ts lines 60–83): six independent
rules over the upper-cased expression, each contributing at most one
message, in source order. -/
def detectRisks (expression : Option String) : List String :=
  let e := upperS (expression.getD "")
  (if bareSlashTest e && !divideCallTest e then [riskMsg1] else []) ++
  (if avgxOverMeasureRisk e then [riskMsg2] else []) ++
  (if countaxTrueRisk e then [riskMsg3] else []) ++
  (if maxAnchorRisk e && (containsS "DATEADD" e || containsS "DATESINPERIOD" e)
   then [riskMsg4] else []) ++
  (if relatedRisk e then [riskMsg5] else []) ++
  (if ifCallTest e && !guardFnTest e then [riskMsg6] else [])

/-- Is the character a separator for `normalizeTitle`'s `/[_\-]+/g`? -/
def isSep (c : Char) : Bool := c = '_' || c = '-'

/-- `name.replace(/[_\-]+/g, ' ')`: every maximal run of `_`/`-` becomes a
single space.  The Boolean argument records whether the previous input
character was part of a separator run. -/
def collapseSep : Bool → List Char → List Char
  | _, [] => []
  | prevSep, c :: t =>
    if isSep c then
      if prevSep then collapseSep true t else ' ' :: collapseSep true t
    else c :: collapseSep false t

/-- `.replace(/([a-z0-9])([A-Z])/g, '$1 $2')`: insert a space between a
lower-case/digit character and an upper-case one.  The global-regex resume
position (after `$2`) cannot affect the result, because `$2` is
upper-case and thus can never start a fresh match. -/
def camelSplit : List Char → List Char
  | [] => []
  | [c] => [c]
  | c1 :: c2 :: t =>
    if isLowerOrDigit c1 && isUpperChar c2 then c1 :: ' ' :: camelSplit (c2 :: t)
    else c1 :: camelSplit (c2 :: t)

/-- `normalizeTitle` (measure-heuristics.ts lines 21–24). -/
def normalizeTitle (name : String) : String :=
  let s := jsTrimL (camelSplit (collapseSep false name.data))
  match s with
  | [] => ""
  | c :: t => ⟨c.toUpper :: t⟩

/-- JS truthiness of an optional string (`window ? … : …` where `window`
is `string | undefined`). -/
def optStrTruthy : Option String → Bool
  | some s => s ≠ ""
  | none => false

/-- `generatePurpose` (measure-heuristics.ts lines 86–99). -/
def generatePurpose (name : String) (kind : MKind) (window : Option String) : String :=
  let t := normalizeTitle name
  let w := if optStrTruthy window then " (" ++ window.getD "" ++ ")" else ""
  match kind with
  | .sum => t ++ w ++ " totals the underlying numeric values for performance tracking."
  | .count => t ++ w ++ " counts records to show activity or volume."
  | .avg => t ++ w ++ " highlights typical performance by averaging underlying values."
  | .percent => t ++ w ++ " expresses performance as a percentage for easy comparison."
  | .ratio => t ++ w ++ " compares two quantities to reveal efficiency or conversion."
  | .timeIntel => t ++ w ++ " applies time-intelligence to compare or roll up periods."
  | .windowed => t ++ w ++ " evaluates performance over a rolling window."
  | .other => t ++ w ++ " summarizes a key business signal from the model."

/-- `generateWhenToUse` (measure-heuristics.ts lines 101–113). -/
def generateWhenToUse (kind : MKind) (window : Option String) : String :=
  let w := if optStrTruthy window then " over " ++ lowerS (window.getD "") else ""
  match kind with
  | .sum => "Use for totals" ++ w ++ ", target progress, and period close reviews."
  | .count => "Use to track activity volume" ++ w ++ ", funnel counts, and data completeness."
  | .avg => "Use to monitor average performance" ++ w ++ " and detect outliers."
  | .percent => "Use for goal attainment" ++ w ++ ", conversion, and benchmark comparisons."
  | .ratio => "Use to compare effectiveness" ++ w ++ " across segments or time."
  | .timeIntel => "Use for YoY/MoM trends, seasonality, and rolling period analysis."
  | .windowed => "Use for short-term trend monitoring and recent momentum checks."
  | .other => "Use when a concise business signal is needed across time or segments."

/-- `generateSuccessIndicators` (measure-heuristics.ts lines 115–124). -/
def generateSuccessIndicators (kind : MKind) : List String :=
  match kind with
  | .percent => ["Consistently above target threshold", "Stable or improving trend"]
  | .ratio => ["Improving efficiency over time", "Better than peer segments"]
  | .avg => ["Stable variance", "Within expected control limits"]
  | .count => ["Increasing activity when desired", "No unexplained drops"]
  | .sum => ["On plan vs goal", "Healthy growth trajectory"]
  | _ => ["Stable trend", "Aligned with business expectations"]

/-- `HeuristicMeasureOutput` (measure-heuristics.ts lines 9–18). -/
structure HOut where
  name : String
  kind : MKind
  window : Option String
  purpose : String
  whenToUse : String
  successIndicators : List String
  risks : List String
  dependencies : List String
deriving DecidableEq, Repr

/-- `heuristicDescribe` (measure-heuristics.ts lines 127–136).  The
`displayFolder`/`description` fields of `HeuristicMeasureInput` are never
read by the function and are omitted here.  `name` must be an actual
string (a non-string name would make the original throw inside
`normalizeTitle`; call sites that can pass a non-string model that
exception explicitly). -/
def heuristicDescribe (name : String) (expression : Option String) : HOut :=
  let kind := inferKind name expression
  let window := extractWindow expression
  { name := name
    kind := kind
    window := window
    purpose := generatePurpose name kind window
    whenToUse := generateWhenToUse kind window
    successIndicators := generateSuccessIndicators kind
    risks := detectRisks expression
    dependencies := extractDependencies expression }

end MeasureHeuristics

/-! ## dax-lint.ts -/

namespace DaxLint

/-- `LintSeverity = 'info' | 'warn' | 'error'` (dax-lint.ts line 1). -/
inductive LintSeverity where
  | info | warn | err
deriving DecidableEq, Repr

/-- `LintFinding` (dax-lint.ts lines 3–8). -/
structure LintFinding where
  ruleId : String
  message : String
  severity : LintSeverity
  exampleText : Option String
deriving DecidableEq, Repr

/-- One branch of the `divideOperator` operand alternation
`([A-Z_][A-Z0-9_]*|[a-z_][a-z0-9_]*|\[[^\]]+\]|[A-Za-z0-9_]+\[[^\]]+\])`,
parsed at the current position; returns the rest of the input.  Each
greedy sub-run is followed by a character outside its class, so each
branch parses deterministically; the branches are tried in source order
by `divideOperand?`. -/
def opBranchUpper (l : List Char) : Option (List Char) :=
  match l with
  | c :: t => if isUpperChar c || c = '_' then some (starRun (fun d => isUpperChar d || isDigitChar d || d = '_') t) else none
  | [] => none

def opBranchLower (l : List Char) : Option (List Char) :=
  match l with
  | c :: t =>
    if ('a' ≤ c && c ≤ 'z') || c = '_' then
      some (starRun (fun d => ('a' ≤ d && d ≤ 'z') || isDigitChar d || d = '_') t)
    else none
  | [] => none

def opBranchBracket (l : List Char) : Option (List Char) := do
  let r ← chL? '[' l
  let r ← plusRun (fun c => c ≠ ']') r
  chL? ']' r

def opBranchQualified (l : List Char) : Option (List Char) := do
  let r ← plusRun isWordChar l
  let r ← chL? '[' r
  let r ← plusRun (fun c => c ≠ ']') r
  chL? ']' r

/-- The operand alternation, with the `\b` handled by the caller: the
first character of branches 1, 2 and 4 is a word character, while branch 3
starts with `[`, so the leading `\b` of the whole pattern demands a
non-word previous character for branches 1/2/4 and a word previous
character for branch 3. -/
def divideOperandAfterB? (prevIsWord : Bool) (l : List Char) : List (List Char) :=
  (if !prevIsWord then (opBranchUpper l).toList ++ (opBranchLower l).toList else []) ++
  (if prevIsWord then (opBranchBracket l).toList else []) ++
  (if !prevIsWord then (opBranchQualified l).toList else [])

/-- Second operand (no trailing context): any branch succeeding. -/
def divideSecondOperand (l : List Char) : Bool :=
  (opBranchUpper l).isSome || (opBranchLower l).isSome ||
  (opBranchBracket l).isSome || (opBranchQualified l).isSome

/-- `rx.divideOperator` (dax-lint.ts line 11), case-sensitive:
`/\b(OP)\s*\/\s*(OP)/` where `OP` is the four-branch alternation above.
Searches every position, resolving `\b` against the previous character,
then `\s*\/\s*` and the second operand. -/
def divideOperatorTest (e : String) : Bool := go none e.data
where
  after (r : List Char) : Bool :=
    match chL? '/' (dropWsL r) with
    | some r2 => divideSecondOperand (dropWsL r2)
    | none => false
  go : Option Char → List Char → Bool
    | prev, [] => (divideOperandAfterB? (isWordO prev) []).any after
    | prev, c :: t =>
      (divideOperandAfterB? (isWordO prev) (c :: t)).any after || go (some c) t

/-- Case-insensitive `\bNAME\s*\(` test (shape of `rx.hasDIVIDE`,
`rx.relatedInMeasure`, `rx.ifWithoutGuard`, `rx.maxAnchor`'s prefix):
implemented on the lower-cased input with a lower-case literal, which is
exactly the `i` flag for ASCII patterns. -/
def ciCallTest (nameLower : String) (e : String) : Bool :=
  searchWB
    (fun l =>
      match litL? nameLower.data l with
      | some r => headIs '(' (dropWsL r)
      | none => false)
    none (lowerS e).data

/-- `rx.averageXOverMeasure = /\bAVERAGEX\s*\([^,]+,\s*\[[^\]]+\]\s*\)/i`.
`[^,]+` excludes its follower `,`, so the run is determinate. -/
def averageXOverMeasureTest (e : String) : Bool :=
  searchWB
    (fun l =>
      (do
        let r ← litL? "averagex".data l
        let r ← chL? '(' (dropWsL r)
        let r ← plusRun (fun c => c ≠ ',') r
        let r ← chL? ',' r
        let r ← chL? '[' (dropWsL r)
        let r ← plusRun (fun c => c ≠ ']') r
        let r ← chL? ']' r
        chL? ')' (dropWsL r)).isSome)
    none (lowerS e).data

/-- `rx.countAxTrue = /\bCOUNTAX\s*\([^,]+,\s*TRUE\s*\)/i`. -/
def countAxTrueTest (e : String) : Bool :=
  searchWB
    (fun l =>
      (do
        let r ← litL? "countax".data l
        let r ← chL? '(' (dropWsL r)
        let r ← plusRun (fun c => c ≠ ',') r
        let r ← chL? ',' r
        let r ← litL? "true".data (dropWsL r)
        chL? ')' (dropWsL r)).isSome)
    none (lowerS e).data

/-- A `\bLIT\b` alternative of a double-anchored alternation group. -/
def wordLitTest (litLower : String) (eLower : List Char) : Bool :=
  searchWB
    (fun l =>
      match litL? litLower.data l with
      | some r => notWordHead r
      | none => false)
    none eLower

/-- `rx.timeIntelFuncs = /\b(DATESINPERIOD|SAMEPERIODLASTYEAR|DATEADD|PARALLELPERIOD)\b/i`
— a grouped alternation, so every alternative carries both boundaries. -/
def timeIntelFuncsTest (e : String) : Bool :=
  let l := (lowerS e).data
  wordLitTest "datesinperiod" l || wordLitTest "sameperiodlastyear" l ||
  wordLitTest "dateadd" l || wordLitTest "parallelperiod" l

/-- `rx.maxAnchor = /\bMAX\s*\([^)]+\)/i`. -/
def maxAnchorTest (e : String) : Bool :=
  searchWB
    (fun l =>
      (do
        let r ← litL? "max".data l
        let r ← chL? '(' (dropWsL r)
        let r ← plusRun (fun c => c ≠ ')') r
        chL? ')' r).isSome)
    none (lowerS e).data

/-- `rx.guards = /\b(ISBLANK|ISNUMBER|VALUE|SELECTEDVALUE|HASONEVALUE)\b/i`. -/
def guardsTest (e : String) : Bool :=
  let l := (lowerS e).data
  wordLitTest "isblank" l || wordLitTest "isnumber" l || wordLitTest "value" l ||
  wordLitTest "selectedvalue" l || wordLitTest "hasonevalue" l

/-- The six findings `lintDax` can emit, in rule order (dax-lint.ts
lines 29–82). -/
def finding1 : LintFinding :=
  { ruleId := "calc.divide-operator", severity := .warn
    message := "Division operator detected without DIVIDE(); verify divide-by-zero behavior."
    exampleText := some "DIVIDE([Numerator], [Denominator])" }
def finding2 : LintFinding :=
  { ruleId := "iter.avgx-measure", severity := .info
    message := "AVERAGEX over a measure may average computed values; confirm the intent vs averaging a base column."
    exampleText := none }
def finding3 : LintFinding :=
  { ruleId := "iter.countax-true", severity := .info
    message := "COUNTAX with TRUE() counts all rows; COUNTROWS() is typically clearer and faster."
    exampleText := some "COUNTROWS( Table )" }
def finding4 : LintFinding :=
  { ruleId := "time.max-anchor", severity := .info
    message := "Time intelligence anchored on MAX() can drift with filters; verify intended end-of-period anchor."
    exampleText := none }
def finding5 : LintFinding :=
  { ruleId := "model.related-in-measure", severity := .info
    message := "RELATED() in measures can be fragile; verify relationship direction and filter context."
    exampleText := none }
def finding6 : LintFinding :=
  { ruleId := "logic.if-no-guards", severity := .info
    message := "IF() without guards (HASONEVALUE/ISBLANK/etc.) may mis-handle blanks or multi-selects."
    exampleText := none }

/-- `lintDax` (dax-lint.ts lines 22–85): trim, return `[]` on empty input,
otherwise run the six independent rules in order. -/
def lintDax (expression : Option String) : List LintFinding :=
  let e := strTrim (expression.getD "")
  if e = "" then []
  else
    (if divideOperatorTest e && !ciCallTest "divide" e then [finding1] else []) ++
    (if averageXOverMeasureTest e then [finding2] else []) ++
    (if countAxTrueTest e then [finding3] else []) ++
    (if timeIntelFuncsTest e && maxAnchorTest e then [finding4] else []) ++
    (if ciCallTest "related" e then [finding5] else []) ++
    (if ciCallTest "if" e && !guardsTest e then [finding6] else [])

end DaxLint


/-! ## Dynamically-typed JS values

`JVal` models the values flowing through the untyped (`any`) parts of the
pipeline: the six JSON value forms plus `undefined`.  JS numbers are
`Option JsNum` with `none` for `NaN` (`±Infinity` does not arise in the
analysed paths and is not modelled).  `JsNum` is an exact fraction kept in
lowest terms by its smart constructor `mkJsNum`; every numeral in the
analysed code paths is an exact terminating decimal, where fraction and
IEEE-754 semantics coincide for the operations performed (counting,
comparison, weighted averages of small decimals). -/

/-- A JS (finite) number as a normalised fraction. -/
structure JsNum where
  num : Int
  den : Nat
deriving DecidableEq, Repr

/-- Normalising constructor (denominator positive at every call site). -/
def mkJsNum (n : Int) (d : Nat) : JsNum :=
  let g := Nat.gcd n.natAbs d
  if g = 0 then ⟨0, 1⟩ else ⟨n / g, d / g⟩

def jsNumOfNat (n : Nat) : JsNum := ⟨n, 1⟩

def jsNumOfInt (n : Int) : JsNum := ⟨n, 1⟩

mutual
inductive JVal where
  | undef
  | jnull
  | bool (b : Bool)
  | num (q : Option JsNum)
  | str (s : String)
  | arr (xs : JArr)
  | obj (fs : JObj)
deriving DecidableEq, Repr
inductive JArr where
  | nil
  | cons (hd : JVal) (tl : JArr)
deriving DecidableEq, Repr
inductive JObj where
  | nil
  | cons (k : String) (v : JVal) (tl : JObj)
deriving DecidableEq, Repr
end

namespace JArr

def ofList : List JVal → JArr
  | [] => .nil
  | x :: t => .cons x (ofList t)

def toList : JArr → List JVal
  | .nil => []
  | .cons x t => x :: toList t

end JArr

namespace JObj

def ofList : List (String × JVal) → JObj
  | [] => .nil
  | (k, v) :: t => .cons k v (ofList t)

def toList : JObj → List (String × JVal)
  | .nil => []
  | .cons k v t => (k, v) :: toList t

/-- First field with the given key. -/
def find : JObj → String → Option JVal
  | .nil, _ => none
  | .cons k' v t, k => if k' = k then some v else find t k

/-- Overwrite a field in place, or append it. -/
def setF : JObj → String → JVal → JObj
  | .nil, k, x => .cons k x .nil
  | .cons k' v t, k, x => if k' = k then .cons k x t else .cons k' v (setF t k x)

end JObj

namespace JVal

/-- Array literal. -/
def mkArr (l : List JVal) : JVal := .arr (JArr.ofList l)

/-- Object literal. -/
def mkObj (l : List (String × JVal)) : JVal := .obj (JObj.ofList l)

/-- Property read `v.k` / `v?.k`: defined-field lookup on objects,
`undefined` otherwise (property reads on primitives and on arrays by a
non-index name yield `undefined`, as do reads through `?.` on
`null`/`undefined`). -/
def get : JVal → String → JVal
  | obj fs, k => (fs.find k).getD undef
  | _, _ => undef

/-- JS truthiness. -/
def truthy : JVal → Bool
  | undef => false
  | jnull => false
  | bool b => b
  | num none => false
  | num (some q) => q.num ≠ 0
  | str s => s ≠ ""
  | arr _ => true
  | obj _ => true

/-- JS `a || b`. -/
def jsOr (a b : JVal) : JVal := if a.truthy then a else b

/-- JS `a ?? b` (nullish coalescing). -/
def nullish (a b : JVal) : JVal :=
  match a with
  | undef => b
  | jnull => b
  | _ => a

/-- `Number.isFinite(v)` — no coercion: true exactly for non-NaN numbers
(all modelled numbers are finite). -/
def isFiniteNum : JVal → Bool
  | num (some _) => true
  | _ => false

/-- `Array.isArray(v)`. -/
def isArr : JVal → Bool
  | arr _ => true
  | _ => false

/-- Elements of an array value (`[]` otherwise; only used behind
`Array.isArray` guards or defaults that make the argument an array). -/
def elems : JVal → List JVal
  | arr xs => xs.toList
  | _ => []

/-- Fields contributed by an object spread `{...v}`: an object's own
fields; other values contribute none in the analysed code paths (spreading
an array or string would contribute index keys, which no analysed path
reads back, and spreading other primitives contributes nothing). -/
def fields : JVal → List (String × JVal)
  | obj fs => fs.toList
  | _ => []

/-- Property write `o.k = x` on an object: overwrite in place, or append.
Call sites guarantee `o` is an object (in strict-mode JS a property write
on a primitive throws; such throw-paths are modelled explicitly with
`Except` at the call sites). -/
def set : JVal → String → JVal → JVal
  | obj fs, k, x => obj (fs.setF k x)
  | v, _, _ => v

end JVal

/-! ### Number/string coercions and printing -/

/-- Decimal digits of a natural number (fuel-recursive; the number itself
bounds the digit count). -/
def natDigitsAux : Nat → Nat → List Char → List Char
  | 0, _, acc => acc
  | fuel + 1, n, acc =>
    let d := Char.ofNat (n % 10 + '0'.toNat)
    if n < 10 then d :: acc else natDigitsAux fuel (n / 10) (d :: acc)

def natToStr (n : Nat) : String := ⟨natDigitsAux (n + 1) n []⟩

def intToStr (i : Int) : String :=
  if i < 0 then "-" ++ natToStr i.natAbs else natToStr i.natAbs

/-- Count and strip the factor `p` from `n` (fuel-recursive). -/
def stripFactor (p : Nat) : Nat → Nat → Nat × Nat
  | 0, n => (0, n)
  | fuel + 1, n =>
    if n % p = 0 && n ≠ 0 then
      let (k, m) := stripFactor p fuel (n / p)
      (k + 1, m)
    else (0, n)

/-- Print a `JsNum` as JS prints the corresponding number, exactly for
fractions whose denominator divides a power of ten (every numeral in the
analysed code paths; a JS float parsed from such a decimal literal of
modest precision re-prints as that same literal).  Other denominators
fall back to a fraction rendering, unreachable from the modelled data. -/
def jsNumToStr (q : JsNum) : String :=
  if q.den = 1 then intToStr q.num
  else
    let (a, r2) := stripFactor 2 64 q.den
    let (b, r5) := stripFactor 5 64 r2
    if r5 = 1 then
      let k := if a ≤ b then b else a
      let scaled := q.num.natAbs * (10 ^ k / q.den)
      let digits := natToStr scaled
      let digits : String := if digits.length ≤ k then
        ⟨List.replicate (k + 1 - digits.length) '0' ++ digits.data⟩ else digits
      let intPart : String := ⟨digits.data.take (digits.length - k)⟩
      let frac : String := ⟨digits.data.drop (digits.length - k)⟩
      (if q.num < 0 then "-" else "") ++ intPart ++ "." ++ frac
    else intToStr q.num ++ "/" ++ natToStr q.den

mutual

/-- `String(v)` (ToString coercion; arrays join their elements with `,`,
rendering `null`/`undefined` elements as empty). -/
def jsToString : JVal → String
  | .undef => "undefined"
  | .jnull => "null"
  | .bool b => if b then "true" else "false"
  | .num none => "NaN"
  | .num (some q) => jsNumToStr q
  | .str s => s
  | .arr xs => String.intercalate "," (jsToStringElems xs)
  | .obj _ => "[object Object]"

def jsToStringElems : JArr → List String
  | .nil => []
  | .cons h t =>
    (match h with
     | .undef => ""
     | .jnull => ""
     | _ => jsToString h) :: jsToStringElems t

end

/-- `Number(s)` for a string: trimmed; empty → 0; an optional sign, then
digits with optional fraction and exponent → the exact value; anything
else → NaN.  (`Infinity` and radix-prefixed literals are mapped to NaN;
the difference is unobservable in the analysed paths, which only ask
`Number.isFinite` afterwards.) -/
def jsParseNumber (s : String) : Option JsNum :=
  let l := jsTrimL s.data
  if l.isEmpty then some ⟨0, 1⟩
  else
    let (sign, l) : Int × List Char := match l with
      | '-' :: t => (-1, t)
      | '+' :: t => (1, t)
      | _ => (1, l)
    let ip := l.takeWhile isDigitChar
    let l1 := l.dropWhile isDigitChar
    let (fp, l2) := match l1 with
      | '.' :: t => (t.takeWhile isDigitChar, t.dropWhile isDigitChar)
      | _ => ([], l1)
    if ip.isEmpty && fp.isEmpty then none
    else
      let mant := mkJsNum
        (sign * ((MeasureHeuristics.digitsToNat ip * 10 ^ fp.length +
          MeasureHeuristics.digitsToNat fp : Nat) : Int))
        (10 ^ fp.length)
      match l2 with
      | [] => some mant
      | e :: t =>
        if e = 'e' || e = 'E' then
          let (esign, t) := match t with
            | '-' :: t' => (true, t')
            | '+' :: t' => (false, t')
            | _ => (false, t)
          let ed := t.takeWhile isDigitChar
          if ed.isEmpty || !(t.dropWhile isDigitChar).isEmpty then none
          else
            let k := MeasureHeuristics.digitsToNat ed
            some (if esign then mkJsNum mant.num (mant.den * 10 ^ k)
              else mkJsNum (mant.num * 10 ^ k) mant.den)
        else none

/-- `Number(v)` (ToNumber coercion; arrays via their joined string form,
plain objects to NaN via `"[object Object]"`). -/
def jsToNumber : JVal → Option JsNum
  | .undef => none
  | .jnull => some ⟨0, 1⟩
  | .bool b => some (if b then ⟨1, 1⟩ else ⟨0, 1⟩)
  | .num q => q
  | .str s => jsParseNumber s
  | .arr xs => jsParseNumber (jsToString (.arr xs))
  | .obj _ => none

/-! ### JSON.parse / JSON.stringify -/

/-- JSON whitespace (space, tab, line feed, carriage return). -/
def jsonWs (c : Char) : Bool := c = ' ' || c = '\t' || c = '\n' || c = '\r'

def skipJsonWs (l : List Char) : List Char := l.dropWhile jsonWs

def hexVal? (c : Char) : Option Nat :=
  let n := c.toNat
  if 48 ≤ n && n ≤ 57 then some (n - 48)
  else if 97 ≤ n && n ≤ 102 then some (n - 87)
  else if 65 ≤ n && n ≤ 70 then some (n - 55)
  else none

/-- JSON string body after the opening quote (fuel-recursive over the
input).  Escapes per the JSON grammar; `\uXXXX` maps the code unit
directly to a character (no surrogate pairing — the analysed data is
ASCII). -/
def parseJsonStr : Nat → List Char → List Char → Option (String × List Char)
  | 0, _, _ => none
  | _ + 1, acc, '"' :: t => some (⟨acc.reverse⟩, t)
  | fuel + 1, acc, '\\' :: c :: t =>
    match c with
    | '"' => parseJsonStr fuel ('"' :: acc) t
    | '\\' => parseJsonStr fuel ('\\' :: acc) t
    | '/' => parseJsonStr fuel ('/' :: acc) t
    | 'b' => parseJsonStr fuel ('\x08' :: acc) t
    | 'f' => parseJsonStr fuel ('\x0c' :: acc) t
    | 'n' => parseJsonStr fuel ('\n' :: acc) t
    | 'r' => parseJsonStr fuel ('\r' :: acc) t
    | 't' => parseJsonStr fuel ('\t' :: acc) t
    | 'u' =>
      match t with
      | h1 :: h2 :: h3 :: h4 :: t' =>
        match hexVal? h1, hexVal? h2, hexVal? h3, hexVal? h4 with
        | some a, some b, some c', some d =>
          parseJsonStr fuel (Char.ofNat (((a * 16 + b) * 16 + c') * 16 + d) :: acc) t'
        | _, _, _, _ => none
      | _ => none
    | _ => none
  | fuel + 1, acc, c :: t =>
    if c.toNat < 0x20 then none else parseJsonStr fuel (c :: acc) t
  | _, _, [] => none

/-- JSON number at the head of the input. -/
def parseJsonNum (l : List Char) : Option (JsNum × List Char) :=
  let (sign, l1) : Int × List Char := match l with
    | '-' :: t => (-1, t)
    | _ => (1, l)
  let ip := l1.takeWhile isDigitChar
  let l2 := l1.dropWhile isDigitChar
  if ip.isEmpty then none
  else if ip.length > 1 && ip.headD '0' = '0' then none
  else
    let (fp, l3) := match l2 with
      | '.' :: t => (t.takeWhile isDigitChar, t.dropWhile isDigitChar)
      | _ => ([], l2)
    if (match l2 with | '.' :: _ => fp.isEmpty | _ => false) then none
    else
      let mant := mkJsNum
        (sign * ((MeasureHeuristics.digitsToNat ip * 10 ^ fp.length +
          MeasureHeuristics.digitsToNat fp : Nat) : Int))
        (10 ^ fp.length)
      match l3 with
      | e :: t =>
        if e = 'e' || e = 'E' then
          let (esign, t') := match t with
            | '-' :: t'' => (true, t'')
            | '+' :: t'' => (false, t'')
            | _ => (false, t)
          let ed := t'.takeWhile isDigitChar
          if ed.isEmpty then none
          else
            let k := MeasureHeuristics.digitsToNat ed
            some ((if esign then mkJsNum mant.num (mant.den * 10 ^ k)
              else mkJsNum (mant.num * 10 ^ k) mant.den), t'.dropWhile isDigitChar)
        else some (mant, l3)
      | [] => some (mant, [])

/-- Duplicate-key resolution of `JSON.parse`: a repeated key keeps the
first occurrence's position with the last occurrence's value. -/
def dedupFieldsF : Nat → List (String × JVal) → List (String × JVal)
  | 0, _ => []
  | _, [] => []
  | fuel + 1, (k, v) :: t =>
    let v' := (t.filter fun p => p.1 = k).foldl (fun _ p => p.2) v
    (k, v') :: dedupFieldsF fuel (t.filter fun p => p.1 ≠ k)

mutual

/-- JSON value parser (fuel-recursive; fuel bounded by input length at
the top-level wrapper, and every recursive call consumes input). -/
def parseJsonVal : Nat → List Char → Option (JVal × List Char)
  | 0, _ => none
  | fuel + 1, l =>
    match skipJsonWs l with
    | 'n' :: t => (litL? "ull".data t).map fun r => (JVal.jnull, r)
    | 't' :: t => (litL? "rue".data t).map fun r => (JVal.bool true, r)
    | 'f' :: t => (litL? "alse".data t).map fun r => (JVal.bool false, r)
    | '"' :: t => (parseJsonStr (t.length + 1) [] t).map fun (s, r) => (JVal.str s, r)
    | '[' :: t =>
      (match skipJsonWs t with
       | ']' :: r => some (JVal.mkArr [], r)
       | _ => (parseJsonElems fuel t).map fun (xs, r) => (JVal.mkArr xs, r))
    | '{' :: t =>
      (match skipJsonWs t with
       | '}' :: r => some (JVal.mkObj [], r)
       | _ => (parseJsonFields fuel t).map fun (fs, r) =>
           (JVal.mkObj (dedupFieldsF fs.length fs), r))
    | l' => (parseJsonNum l').map fun (q, r) => (JVal.num (some q), r)

/-- Array elements after `[` (at least one). -/
def parseJsonElems : Nat → List Char → Option (List JVal × List Char)
  | 0, _ => none
  | fuel + 1, l => do
    let (v, r) ← parseJsonVal fuel l
    match skipJsonWs r with
    | ',' :: r' => (parseJsonElems fuel r').map fun (xs, r'') => (v :: xs, r'')
    | ']' :: r' => some ([v], r')
    | _ => none

/-- Object members after `{` (at least one), in source order (duplicate
keys are resolved afterwards by `dedupFieldsF`). -/
def parseJsonFields : Nat → List Char → Option (List (String × JVal) × List Char)
  | 0, _ => none
  | fuel + 1, l =>
    match skipJsonWs l with
    | '"' :: t => do
      let (k, r) ← parseJsonStr (t.length + 1) [] t
      match skipJsonWs r with
      | ':' :: r' => do
        let (v, r'') ← parseJsonVal fuel r'
        match skipJsonWs r'' with
        | ',' :: r3 => (parseJsonFields fuel r3).map fun (fs, r4) => ((k, v) :: fs, r4)
        | '}' :: r3 => some ([(k, v)], r3)
        | _ => none
      | _ => none
    | _ => none

end

/-- `JSON.parse` on a whole string (`none` models the thrown
`SyntaxError`). -/
def jsonParse (s : String) : Option JVal :=
  match parseJsonVal (s.data.length + 1) s.data with
  | some (v, r) => if (skipJsonWs r).isEmpty then some v else none
  | none => none

/-- JSON string-literal rendering with escapes, as `JSON.stringify`
produces. -/
def jsonQuote (s : String) : String :=
  "\"" ++ (⟨s.data.flatMap fun c =>
    if c = '"' then "\\\"".data
    else if c = '\\' then "\\\\".data
    else if c = '\n' then "\\n".data
    else if c = '\r' then "\\r".data
    else if c = '\t' then "\\t".data
    else if c = '\x08' then "\\b".data
    else if c = '\x0c' then "\\f".data
    else if c.toNat < 0x20 then
      '\\' :: 'u' :: '0' :: '0' ::
        Char.ofNat (c.toNat / 16 + '0'.toNat) ::
        [Char.ofNat (c.toNat % 16 + (if c.toNat % 16 < 10 then '0'.toNat else 'a'.toNat - 10))]
    else [c]⟩ : String) ++ "\""

mutual

/-- `JSON.stringify(v)` — `none` when the result is `undefined` (i.e. a
top-level `undefined`); `undefined` object fields are omitted,
`undefined` array elements and NaN become `null`. -/
def jsonStringify : JVal → Option String
  | .undef => none
  | .jnull => some "null"
  | .bool b => some (if b then "true" else "false")
  | .num none => some "null"
  | .num (some q) => some (jsNumToStr q)
  | .str s => some (jsonQuote s)
  | .arr xs => some ("[" ++ String.intercalate "," (jsonStringifyElems xs) ++ "]")
  | .obj fs => some ("\x7b" ++ String.intercalate "," (jsonStringifyFields fs) ++ "\x7d")

def jsonStringifyElems : JArr → List String
  | .nil => []
  | .cons h t => (jsonStringify h).getD "null" :: jsonStringifyElems t

def jsonStringifyFields : JObj → List String
  | .nil => []
  | .cons k v t =>
    (match jsonStringify v with
     | some sv => [jsonQuote k ++ ":" ++ sv]
     | none => []) ++ jsonStringifyFields t

end

/-! ## Shared agent types (base-agent.ts) -/

/-- `AgentResult` (base-agent.ts lines 5–11).  `analysis` is
`string | Record<string, any>`, hence a `JVal`; `confidence : number` may
be NaN (`none`); the wall-clock `timestamp` field is not modelled. -/
structure AgentResult where
  agentType : String
  analysis : JVal
  confidence : Option JsNum
  metadata : JVal
deriving DecidableEq, Repr

/-- `AgentContext` (base-agent.ts lines 13–29), restricted to the fields
the analysed code reads.  The four entity lists are arrays of loosely
typed rows; `domain`/`stakeholders`/`businessContext` are optional
(`JVal.undef` when absent). -/
structure AgentCtx where
  measures : List JVal := []
  tables : List JVal := []
  columns : List JVal := []
  relationships : List JVal := []
  domain : JVal := .undef
  stakeholders : JVal := .undef
  businessContext : JVal := .undef
deriving DecidableEq, Repr

/-! ## agent-0-csv-parser.ts — `CSVParserAgent.normaliseParsed` -/

namespace CSVParserAgent

/-- `type Cardinality` (agent-0-csv-parser.ts line 7). -/
inductive Cardinality where
  | manyToOne | oneToMany | oneToOne | manyToMany
deriving DecidableEq, Repr

/-- `type Direction` (agent-0-csv-parser.ts line 8). -/
inductive Direction where
  | single | both
deriving DecidableEq, Repr

/-- The canonical string of a `Cardinality` value. -/
def Cardinality.toStr : Cardinality → String
  | .manyToOne => "Many-to-One"
  | .oneToMany => "One-to-Many"
  | .oneToOne => "One-to-One"
  | .manyToMany => "Many-to-Many"

/-- The canonical string of a `Direction` value. -/
def Direction.toStr : Direction → String
  | .single => "Single"
  | .both => "Both"

/-- A normalised measure row (the object literal of lines 111–118). -/
structure MeasureRec where
  name : String
  expression : String
  displayFolder : String
  description : String
  table : String
  formatString : String
deriving DecidableEq, Repr

/-- A normalised table row (lines 129–134). -/
structure TableRec where
  name : String
  rowCount : JsNum
  description : String
  isHidden : Bool
deriving DecidableEq, Repr

/-- A normalised column row (lines 136–152). -/
structure ColumnRec where
  tableName : String
  name : String
  dataType : String
  isKey : Bool
  isHidden : Bool
  description : String
  formatString : String
deriving DecidableEq, Repr

/-- A normalised relationship row (lines 154–162). -/
structure RelationshipRec where
  fromTable : String
  fromColumn : String
  toTable : String
  toColumn : String
  cardinality : Cardinality
  direction : Direction
  active : Bool
deriving DecidableEq, Repr

/-- The value returned by `normaliseParsed` (line 164). -/
structure ParsedData where
  measures : List MeasureRec
  tables : List TableRec
  columns : List ColumnRec
  relationships : List RelationshipRec
  metadata : JVal
deriving DecidableEq, Repr

/-- `String(v?.k1 ?? v?.k2 ?? … ?? '').trim()` over an ordered key list. -/
def pickKeys (v : JVal) (ks : List String) : String :=
  strTrim (jsToString (ks.foldr (fun k acc => (v.get k).nullish acc) (.str "")))

/-- `this.toNumber(x)` (lines 182–185): `Number(x)`, NaN (or an infinity,
not modelled) coerced to 0. -/
def toNumber (v : JVal) : JsNum :=
  match jsToNumber v with
  | some q => q
  | none => ⟨0, 1⟩

/-- `/\b(id|key)\b/i.test(name)` — case-insensitivity via the lower-cased
input, boundaries on both sides of either literal. -/
def idKeyWordTest (name : String) : Bool :=
  searchWB
    (fun l =>
      (match litL? "id".data l with
       | some r => notWordHead r
       | none => false) ||
      (match litL? "key".data l with
       | some r => notWordHead r
       | none => false))
    none (lowerS name).data

/-- `/[_\s](id|key)$/i.test(name)`: the name ends in `id` or `key`
immediately preceded by an underscore or whitespace character. -/
def idKeySuffixTest (name : String) : Bool :=
  match (lowerS name).data.reverse with
  | 'd' :: 'i' :: c :: _ => c = '_' || jsWs c
  | 'y' :: 'e' :: 'k' :: c :: _ => c = '_' || jsWs c
  | _ => false

/-- Measure row mapping (lines 111–118). -/
def normaliseMeasureRow (m : JVal) : MeasureRec :=
  { name := pickKeys m ["name", "MeasureName"]
    expression := pickKeys m ["expression", "Expression"]
    displayFolder := pickKeys m ["displayFolder", "DisplayFolder"]
    description := pickKeys m ["description", "Description"]
    table := pickKeys m ["table", "Table"]
    formatString := pickKeys m ["formatString", "FormatString"] }

/-- Table row mapping (lines 129–134). -/
def normaliseTableRow (t : JVal) : TableRec :=
  { name := pickKeys t ["name", "TableName"]
    rowCount := toNumber ((t.get "rowCount").nullish ((t.get "RowCount").nullish (.num (some ⟨0, 1⟩))))
    description := pickKeys t ["description", "Description"]
    isHidden := ((t.get "isHidden").nullish ((t.get "IsHidden").nullish (.bool false))).truthy }

/-- Column row mapping (lines 136–152), including the `isKey` inference
`Boolean(c?.isKey ?? c?.IsKey) || /\b(id|key)\b/i.test(name) || /[_\s](id|key)$/i.test(name)`. -/
def normaliseColumnRow (c : JVal) : ColumnRec :=
  let name := pickKeys c ["name", "ColumnName"]
  let tbl := pickKeys c ["tableName", "TableName"]
  { tableName := tbl
    name := name
    dataType := strTrim (jsToString ((c.get "dataType").nullish ((c.get "DataType").nullish (.str "String"))))
    isKey := ((c.get "isKey").nullish (c.get "IsKey")).truthy ||
      idKeyWordTest name || idKeySuffixTest name
    isHidden := ((c.get "isHidden").nullish ((c.get "IsHidden").nullish (.bool false))).truthy
    description := pickKeys c ["description", "Description"]
    formatString := pickKeys c ["formatString", "FormatString"] }

/-- `normaliseCardinality` (lines 167–174). -/
def normaliseCardinality (v : JVal) : Cardinality :=
  let s := lowerS (jsToString (v.jsOr (.str "")))
  if containsS "one-to-one" s then .oneToOne
  else if containsS "one-to-many" s then .oneToMany
  else if containsS "many-to-one" s then .manyToOne
  else if containsS "many-to-many" s || s = "m2m" then .manyToMany
  else .manyToOne

/-- `normaliseDirection` (lines 176–180). -/
def normaliseDirection (v : JVal) : Direction :=
  let s := lowerS (jsToString (v.jsOr (.str "")))
  if s = "both" || s = "bi" || containsS "both" s then .both else .single

/-- Relationship row mapping (lines 154–162). -/
def normaliseRelationshipRow (r : JVal) : RelationshipRec :=
  { fromTable := pickKeys r ["fromTable", "FromTable", "tableFrom", "TableFrom", "Table1"]
    fromColumn := pickKeys r ["fromColumn", "FromColumn", "ColumnFrom", "Column1"]
    toTable := pickKeys r ["toTable", "ToTable", "tableTo", "TableTo", "Table2"]
    toColumn := pickKeys r ["toColumn", "ToColumn", "ColumnTo", "Column2"]
    cardinality := normaliseCardinality ((r.get "cardinality").nullish (r.get "Cardinality"))
    direction := normaliseDirection ((r.get "crossFilterDirection").nullish (r.get "CrossFilterDirection"))
    active :=
      match r.get "active" with
      | .bool b => b
      | _ =>
        match r.get "IsActive" with
        | .bool b => b
        | _ => true }

/-- De-duplication of measures by lower-cased name, first occurrence wins
(lines 121–127; the mutable `Set` closure of the source `filter`). -/
def dedupMeasures (seen : List String) : List MeasureRec → List MeasureRec
  | [] => []
  | m :: t =>
    let k := lowerS m.name
    if k ∈ seen then dedupMeasures seen t
    else m :: dedupMeasures (k :: seen) t

/-- `(x || []).map(...)` requires the coalesced value to be an array;
a truthy non-array would make the original throw at `.map`. -/
def arrOrThrow (v : JVal) : Except Unit (List JVal) :=
  match v.jsOr (JVal.mkArr []) with
  | .arr xs => .ok xs.toList
  | _ => .error ()

/-- The pre-dedup measure list (map + name filter, lines 111–118). -/
def measureBase (ms : List JVal) : List MeasureRec :=
  (ms.map normaliseMeasureRow).filter fun m => m.name ≠ ""

/-- `normaliseParsed` (agent-0-csv-parser.ts lines 110–165). -/
def normaliseParsed (raw : JVal) : Except Unit ParsedData := do
  let ms ← arrOrThrow (raw.get "measures")
  let ts ← arrOrThrow (raw.get "tables")
  let cs ← arrOrThrow (raw.get "columns")
  let rs ← arrOrThrow (raw.get "relationships")
  .ok
    { measures := dedupMeasures [] (measureBase ms)
      tables := (ts.map normaliseTableRow).filter fun t => t.name ≠ ""
      columns := (cs.map normaliseColumnRow).filter fun c => c.tableName ≠ "" && c.name ≠ ""
      relationships := (rs.map normaliseRelationshipRow).filter fun r =>
        r.fromTable ≠ "" && r.fromColumn ≠ "" && r.toTable ≠ "" && r.toColumn ≠ ""
      metadata := (raw.get "metadata").jsOr (.mkObj []) }

/-- The JS object a normalised measure is (the record shape produced by
pass one, fed back for the idempotence property). -/
def encodeMeasure (m : MeasureRec) : JVal :=
  .mkObj [("name", .str m.name), ("expression", .str m.expression),
    ("displayFolder", .str m.displayFolder), ("description", .str m.description),
    ("table", .str m.table), ("formatString", .str m.formatString)]

def encodeTable (t : TableRec) : JVal :=
  .mkObj [("name", .str t.name), ("rowCount", .num (some t.rowCount)),
    ("description", .str t.description), ("isHidden", .bool t.isHidden)]

def encodeColumn (c : ColumnRec) : JVal :=
  .mkObj [("tableName", .str c.tableName), ("name", .str c.name),
    ("dataType", .str c.dataType), ("isKey", .bool c.isKey), ("isHidden", .bool c.isHidden),
    ("description", .str c.description), ("formatString", .str c.formatString)]

def encodeRelationship (r : RelationshipRec) : JVal :=
  .mkObj [("fromTable", .str r.fromTable), ("fromColumn", .str r.fromColumn),
    ("toTable", .str r.toTable), ("toColumn", .str r.toColumn),
    ("cardinality", .str r.cardinality.toStr), ("direction", .str r.direction.toStr),
    ("active", .bool r.active)]

/-- The JS value `normaliseParsed` returns (line 164), as seen by a second
normalisation pass. -/
def encodeParsed (p : ParsedData) : JVal :=
  .mkObj [("measures", .mkArr (p.measures.map encodeMeasure)),
    ("tables", .mkArr (p.tables.map encodeTable)),
    ("columns", .mkArr (p.columns.map encodeColumn)),
    ("relationships", .mkArr (p.relationships.map encodeRelationship)),
    ("metadata", p.metadata)]

end CSVParserAgent

instance {ε α : Type} [DecidableEq ε] [DecidableEq α] : DecidableEq (Except ε α) := fun x y =>
  match x, y with
  | .ok a, .ok b =>
    if h : a = b then isTrue (h ▸ rfl) else isFalse fun hh => h (Except.ok.inj hh)
  | .error a, .error b =>
    if h : a = b then isTrue (h ▸ rfl) else isFalse fun hh => h (Except.error.inj hh)
  | .ok _, .error _ => isFalse fun h => Except.noConfusion h
  | .error _, .ok _ => isFalse fun h => Except.noConfusion h

/-! ## helpers/retry.ts — `withRetry` -/

namespace Retry

/-- `Number(e?.status || e?.code || 0)` (retry.ts line 6). -/
def errCode (e : JVal) : Option JsNum :=
  jsToNumber ((e.get "status").jsOr ((e.get "code").jsOr (.num (some ⟨0, 1⟩))))

/-- `[429, 500, 502, 503, 504].includes(code)` (retry.ts line 7);
`includes` on a NaN code is false for this list. -/
def isTransient (e : JVal) : Bool :=
  match errCode e with
  | some q => q = ⟨429, 1⟩ || q = ⟨500, 1⟩ || q = ⟨502, 1⟩ || q = ⟨503, 1⟩ || q = ⟨504, 1⟩
  | none => false

/-- Observable behaviour of one `withRetry(fn, tries)` run: the settled
result, the number of times `fn` was invoked, and the backoff delays
slept (in ms, in order). -/
structure RetryTrace where
  result : Except JVal JVal
  calls : Nat
  delays : List Nat
deriving DecidableEq, Repr

/-- The `for` loop of `withRetry` (retry.ts lines 3–13): `f i` is the
settled outcome of the `i`-th call of `fn` (0-based).  On a failure the
loop retries — after sleeping `400 * (i + 1)²` ms — whenever the status
code is transient **or** attempts remain (`i < tries - 1`); otherwise it
breaks and the last error is thrown.  Fuel is `tries - i`, positive at
every call from the wrapper. -/
def withRetryAux (f : Nat → Except JVal JVal) (tries : Nat) :
    Nat → Nat → Option JVal → List Nat → RetryTrace
  | _, 0, last, delays =>
    { result := .error (last.getD .undef), calls := 0, delays := delays.reverse }
  | i, fuel + 1, last, delays =>
    if i < tries then
      match f i with
      | .ok v => { result := .ok v, calls := i + 1, delays := delays.reverse }
      | .error e =>
        if isTransient e || i < tries - 1 then
          withRetryAux f tries (i + 1) fuel (some e) (400 * (i + 1) ^ 2 :: delays)
        else { result := .error e, calls := i + 1, delays := delays.reverse }
    else { result := .error (last.getD .undef), calls := i, delays := delays.reverse }

/-- `withRetry(fn, tries)` (retry.ts lines 1–15; default `tries = 3`).
A fulfilled `result` is the first successful call's value; a rejected
`result` is the thrown `lastErr` (`undefined` when `tries = 0`, as in JS). -/
def withRetryModel (f : Nat → Except JVal JVal) (tries : Nat := 3) : RetryTrace :=
  withRetryAux f tries 0 (tries + 1) none []

end Retry

/-! ## agent-1-domain-classifier.ts — `DomainClassifierAgent` -/

namespace DomainClassifier

/-- Settled outcome of `this.callClaude(prompt, claudeClient)`: a rejected
promise, or the response record `{success, data?, error?}` (`usage` is
not modelled: no analysed claim reads it). -/
inductive CallOut where
  | reject (e : JVal)
  | resolve (success : Bool) (data : Option String) (err : Option String)
deriving DecidableEq, Repr

/-- `String(t.name || t.TableName || '')` over `ctx.tables`
(agent-1 line 263). -/
def tblNames (ctx : AgentCtx) : List String :=
  ctx.tables.map fun t => jsToString ((t.get "name").jsOr ((t.get "TableName").jsOr (.str "")))

/-- `String(m.name || m.MeasureName || '')` over `ctx.measures`
(agent-1 line 264). -/
def measNames (ctx : AgentCtx) : List String :=
  ctx.measures.map fun m => jsToString ((m.get "name").jsOr ((m.get "MeasureName").jsOr (.str "")))

/-- `/calendar|date/i.test(n)`. -/
def calendarDateTest (n : String) : Bool :=
  containsS "calendar" (lowerS n) || containsS "date" (lowerS n)

/-- `/sale|order|invoice/i.test(n)`. -/
def salesTest (n : String) : Bool :=
  containsS "sale" (lowerS n) || containsS "order" (lowerS n) || containsS "invoice" (lowerS n)

/-- `/financ|ledger|account/i.test(n)`. -/
def financeTest (n : String) : Bool :=
  containsS "financ" (lowerS n) || containsS "ledger" (lowerS n) || containsS "account" (lowerS n)

/-- `fallbackFromContext` (agent-1 lines 262–302), expressed over the
extracted name lists (it reads nothing else from the context). -/
def fallbackFromNames (tbl meas : List String) : JVal :=
  let hasCalendar := tbl.any calendarDateTest
  let hasSales := tbl.any salesTest
  let hasFinance := tbl.any financeTest
  let domain : String :=
    if hasSales then "Sales Analytics"
    else if hasFinance then "Financial Analytics"
    else "Analytics Model"
  let processes : List String :=
    (if hasSales then ["Sales Performance"] else []) ++
    (if hasFinance then ["Financial Reporting"] else []) ++
    (if hasCalendar then ["Time Intelligence"] else [])
  .mkObj
    [("domain", .str domain),
     ("executiveSummary", .mkObj
       [("purpose", .str ("Describes core KPIs and relationships across " ++
          natToStr tbl.length ++ " tables and " ++ natToStr meas.length ++ " measures")),
        ("users", .mkArr [.str "Analysts", .str "Business Owners", .str "BI Developers"]),
        ("value", .mkArr [.str "Shared understanding of metrics", .str "Improved decision-making"]),
        ("decisions", .mkArr [.str "Prioritise KPIs", .str "Identify data gaps"])]),
     ("stakeholders", .mkObj
       [("primary", .mkArr [.str "Analysts", .str "Ops Manager"]),
        ("management", .mkArr [.str "Directors", .str "Leads"]),
        ("support", .mkArr [.str "BI Developers"])]),
     ("businessProcesses", .mkArr
       ((if processes.isEmpty then ["Reporting", "Analysis"] else processes).map .str)),
     ("signals", .mkObj
       [("fromMeasures", .mkArr ((meas.take 8).map fun n => .str ("Measure: " ++ n))),
        ("fromTables", .mkArr ((tbl.take 8).map fun n => .str ("Table: " ++ n)))]),
     ("notes", .mkArr [.str "Generated without AI due to unavailable service"]),
     ("confidence", .num (some (mkJsNum 3 10)))]

def fallbackFromContext (ctx : AgentCtx) : JVal :=
  fallbackFromNames (tblNames ctx) (measNames ctx)

/-- `emptyPayload` (agent-1 lines 225–235). -/
def emptyPayload (ctx : AgentCtx) : JVal :=
  .mkObj
    [("domain", ctx.domain.jsOr (.str "Business Intelligence")),
     ("executiveSummary", .mkObj
       [("purpose", .str ""), ("users", .mkArr []), ("value", .mkArr []), ("decisions", .mkArr [])]),
     ("stakeholders", .mkObj
       [("primary", .mkArr []), ("management", .mkArr []), ("support", .mkArr [])]),
     ("businessProcesses", .mkArr []),
     ("signals", .mkObj [("fromMeasures", .mkArr []), ("fromTables", .mkArr [])]),
     ("notes", .mkArr []),
     ("confidence", .num (some (mkJsNum 8 10)))]

/-- `s.replace(/^\s*```(?:json)?\s*/i, '')` (agent-1 line 245, first
half): strip one leading fence; no change when the anchored pattern does
not match. -/
def stripLeadFence (s : String) : String :=
  let l := dropWsL s.data
  match litL? "```".data l with
  | some r =>
    let r := if ((r.take 4).map Char.toLower) = "json".data then r.drop 4 else r
    ⟨dropWsL r⟩
  | none => s

/-- `.replace(/\s*```\s*$/, '')` (line 245, second half): remove the
leftmost suffix consisting of optional whitespace, a fence, and optional
trailing whitespace. -/
def stripTrailFence (s : String) : String := go [] s.data
where
  suffixFence (l : List Char) : Bool :=
    match litL? "```".data (dropWsL l) with
    | some r => (dropWsL r).isEmpty
    | none => false
  go (pre : List Char) : List Char → String
    | [] => ⟨pre.reverse⟩
    | c :: t => if suffixFence (c :: t) then ⟨pre.reverse⟩ else go (c :: pre) t

/-- `s.match(/\{[\s\S]*\}$/)` returns, when the string ends with `}` and
contains a `{`, the slice from the first `{` to the end. -/
def lastBraceSlice (s : String) : Option String :=
  match s.data.getLast? with
  | some '}' =>
    match s.data.dropWhile (fun c => c ≠ '{') with
    | [] => none
    | sub => some ⟨sub⟩
  | _ => none

/-- `safeParseJson` (agent-1 lines 258–260). -/
def safeParseJson (s : String) : Option JVal := jsonParse s

/-- `v && typeof v === 'object' && !Array.isArray(v)`. -/
def isPlainObj : JVal → Bool
  | .obj _ => true
  | _ => false

/-- `ensureJsonString` (agent-1 lines 237–256) for a string argument (the
analysed call passes `response.data : string`). -/
def ensureJsonString (s : String) (fallbackObj : JVal) : String :=
  match jsonParse s with
  | some v =>
    if isPlainObj v then (jsonStringify v).getD ""
    else afterFences s fallbackObj
  | none => afterFences s fallbackObj
where
  afterFences (s : String) (fallbackObj : JVal) : String :=
    let noFences := stripTrailFence (stripLeadFence s)
    match jsonParse noFences with
    | some v2 =>
      if isPlainObj v2 then (jsonStringify v2).getD ""
      else lastBrace noFences fallbackObj
    | none => lastBrace noFences fallbackObj
  lastBrace (noFences : String) (fallbackObj : JVal) : String :=
    match lastBraceSlice noFences with
    | some sub =>
      match jsonParse sub with
      | some v3 => (jsonStringify v3).getD ""
      | none => (jsonStringify fallbackObj).getD ""
    | none => (jsonStringify fallbackObj).getD ""

/-- `/^(business intelligence|unknown|analytics)$/i.test(s)`. -/
def genericDomainTest (s : String) : Bool :=
  let l := lowerS s
  l = "business intelligence" || l = "unknown" || l = "analytics"

/-- Spread `[...]` of a `?? []`-defaulted value: arrays spread to their
elements, strings to their characters; other non-nullish values are not
iterable and throw a `TypeError`. -/
def spreadIter : JVal → Except Unit (List JVal)
  | .arr xs => .ok xs.toList
  | .str s => .ok (s.data.map fun c => .str ⟨[c]⟩)
  | _ => .error ()

/-- `Math.min(0.98, q)` on a non-NaN number (NaN propagates). -/
def min98 : Option JsNum → Option JsNum
  | none => none
  | some q => some (if q.num * 50 ≤ 49 * q.den then q else mkJsNum 49 50)

/-- The generic stakeholder list (agent-1 line 64). -/
def genericStakeholders : List JVal :=
  [.str "Executives", .str "Business Owners", .str "Analysts", .str "BI Developers"]

/-- `inputData` metadata (agent-1 lines 72–77 and 100–105):
`context.X?.length || 0`. -/
def inputDataMeta (ctx : AgentCtx) : JVal :=
  .mkObj
    [("measuresCount", .num (some (jsNumOfNat ctx.measures.length))),
     ("tablesCount", .num (some (jsNumOfNat ctx.tables.length))),
     ("columnsCount", .num (some (jsNumOfNat ctx.columns.length))),
     ("relationshipsCount", .num (some (jsNumOfNat ctx.relationships.length)))]

/-- The `catch` branch of `analyze` (agent-1 lines 86–113): fallback
payload from context names, confidence `0.3`, `metadata.fallback = true`. -/
def catchResult (ctx : AgentCtx) (reason : JVal) : AgentResult :=
  let fb := fallbackFromContext ctx
  let json := (jsonStringify fb).getD ""
  { agentType := "Domain Classifier"
    analysis := .str json
    confidence := some (mkJsNum 3 10)
    metadata := .mkObj
      [("domain", fb.get "domain"),
       ("stakeholders", .mkArr
         (((fb.get "stakeholders").get "primary").elems ++
          ((fb.get "stakeholders").get "management").elems ++
          ((fb.get "stakeholders").get "support").elems)),
       ("businessContext", (fb.get "executiveSummary").get "purpose"),
       ("inputData", inputDataMeta ctx),
       ("fallback", .bool true),
       ("reason", reason)] }

/-- The `try` body of `analyze` (agent-1 lines 39–84); `.error` carries
the thrown value, handed to the catch branch. -/
def analyzeTry (ctx : AgentCtx) (call : CallOut) : Except JVal AgentResult := do
  let (success, data?, err?) ←
    match call with
    | .reject e => Except.error e
    | .resolve success data err => Except.ok (success, data, err)
  let data :=
    match data? with
    | some d => if d = "" then none else some d
    | none => none
  match success, data with
  | true, some s => do
    let json := ensureJsonString s (emptyPayload ctx)
    let parsed := (safeParseJson json).getD .jnull
    let domainV := parsed.get "domain"
    let specific := domainV.truthy && !genericDomainTest (jsToString domainV)
    let finalDomain := if specific then domainV else .str "Analytics Model"
    let stk := parsed.get "stakeholders"
    let p1 ← (spreadIter ((stk.get "primary").nullish (.mkArr []))).mapError
      fun _ => JVal.mkObj [("message", .str "value is not iterable")]
    let p2 ← (spreadIter ((stk.get "management").nullish (.mkArr []))).mapError
      fun _ => JVal.mkObj [("message", .str "value is not iterable")]
    let p3 ← (spreadIter ((stk.get "support").nullish (.mkArr []))).mapError
      fun _ => JVal.mkObj [("message", .str "value is not iterable")]
    let extracted := (p1 ++ p2 ++ p3).filter JVal.truthy
    let finalStakeholders := if extracted.length > 0 then extracted else genericStakeholders
    .ok
      { agentType := "Domain Classifier"
        analysis := .str json
        confidence := min98 (jsToNumber ((parsed.get "confidence").nullish
          (.num (some (mkJsNum 9 10)))))
        metadata := .mkObj
          [("domain", finalDomain),
           ("stakeholders", .mkArr finalStakeholders),
           ("businessContext", (parsed.get "executiveSummary").get "purpose"),
           ("inputData", inputDataMeta ctx)] }
  | _, _ =>
    Except.error (.mkObj [("message",
      .str ("Claude API failed: " ++ jsToString ((match err? with
        | some e => JVal.str e
        | none => JVal.undef))))])

/-- `DomainClassifierAgent.analyze` (agent-1 lines 32–114): every thrown
value inside the `try` is converted to the deterministic fallback result;
the function itself always resolves (`reportProgress` swallows callback
exceptions, base-agent.ts line 66). -/
def analyze (ctx : AgentCtx) (call : CallOut) : AgentResult :=
  match analyzeTry ctx call with
  | .ok r => r
  | .error e => catchResult ctx ((e.get "message").jsOr (.str (jsToString e)))

end DomainClassifier

/-! ## agent-5-report-synthesis.ts — `ReportSynthesisAgent.coerceSynthesis` -/

namespace ReportSynthesis

/-- `SynthesisInput` (agent-5 lines 7–12). -/
structure SynthesisInput where
  domainAnalysis : AgentResult
  businessGlossary : AgentResult
  dataArchitecture : AgentResult
  daxAnalysis : AgentResult
deriving DecidableEq, Repr

/-- `parseJson` (agent-5 lines 427–430): parse strings (fallback on
failure), pass anything else through. -/
def parseJson (v : JVal) (fallback : JVal) : JVal :=
  match v with
  | .str s => (jsonParse s).getD fallback
  | _ => v

/-- In-place update of a spread-field list (`{...t, k: x}`: the key keeps
its position when present, else is appended). -/
def setFieldL : List (String × JVal) → String → JVal → List (String × JVal)
  | [], k, x => [(k, x)]
  | (k', v) :: t, k, x =>
    if k' = k then (k, x) :: t else (k', v) :: setFieldL t k x

/-- The `colCounts` map (agent-5 lines 445–449 and orchestrator lines
1273–1277): per lower-cased `tableName`, the number of context columns. -/
def colCounts (cols : List JVal) : List (String × Nat) :=
  cols.foldl
    (fun m c =>
      let key := lowerS (jsToString ((c.get "tableName").jsOr (.str "")))
      bump m key)
    []
where
  bump : List (String × Nat) → String → List (String × Nat)
    | [], k => [(k, 1)]
    | (k', n) :: t, k => if k' = k then (k', n + 1) :: t else (k', n) :: bump t k

/-- `colCounts.get(key)`. -/
def lookupCount : List (String × Nat) → String → Option Nat
  | [], _ => none
  | (k', n) :: t, k => if k' = k then some n else lookupCount t k

/-- `(t.name || '').toLowerCase()`. -/
def tblKey (t : JVal) : String := lowerS (jsToString ((t.get "name").jsOr (.str "")))

/-- The column key a context column contributes to `colCounts` (the
lower-cased `tableName`). -/
def colKey (c : JVal) : String := lowerS (jsToString ((c.get "tableName").jsOr (.str "")))

/-- `colCounts.get(key) || t.columns || 0` (agent-5 line 462 and
orchestrator line 1281): the recomputed count when at least one context
column matches (map values are always ≥ 1, hence truthy); otherwise the
stage-supplied `t.columns` when truthy; otherwise `0`. -/
def patchedColumns (cc : List (String × Nat)) (t : JVal) : JVal :=
  match lookupCount cc (tblKey t) with
  | some n => .num (some (jsNumOfNat n))
  | none => (t.get "columns").jsOr (.num (some ⟨0, 1⟩))

/-- `Array.isArray(v) && v.length > 0` (the negation of the rebuild
condition `!Array.isArray(v) || v.length === 0`). -/
def isNonEmptyArr (v : JVal) : Bool := v.isArr && !v.elems.isEmpty

/-- The `heuristicDescribe` call on loosely typed fields: JS throws a
`TypeError` unless the `name` argument is an actual string (a non-string
reaches `normalizeTitle`'s `name.replace`) and the expression argument is
a string or falsy (a truthy non-string reaches `.toUpperCase()` inside
`extractWindow`/`detectRisks`). -/
def hdOnJVal (nameV exprV : JVal) : Except Unit MeasureHeuristics.HOut := do
  let nameS ←
    match nameV with
    | .str s => Except.ok s
    | _ => Except.error ()
  let exprO ←
    match exprV with
    | .str s => Except.ok (some s)
    | v => if v.truthy then Except.error () else Except.ok none
  .ok (MeasureHeuristics.heuristicDescribe nameS exprO)

/-- The rebuilt measure entry of the fallback branch (agent-5 lines
478–494): heuristic purpose/whenToUse/successIndicators plus raw fields
(note: no `risks` field in this branch). -/
def rebuiltMeasure (m : JVal) : Except Unit JVal := do
  let h ← hdOnJVal ((m.get "name").jsOr (m.get "MeasureName"))
    ((m.get "expression").jsOr (m.get "Expression"))
  .ok (.mkObj
    [("name", m.get "name"),
     ("businessMeaning", .str h.purpose),
     ("whenToUse", .str h.whenToUse),
     ("successIndicators", .mkArr (h.successIndicators.map .str)),
     ("dax", (m.get "expression").jsOr (.str "")),
     ("folder", (m.get "displayFolder").jsOr (.str "")),
     ("description", (m.get "description").jsOr (.str ""))])

/-- The merge branch entry (agent-5 lines 497–511): `{...m}` with
heuristic backfill of empty business-context fields. -/
def mergedMeasure (m : JVal) : Except Unit JVal := do
  let h ← hdOnJVal (m.get "name")
    ((m.get "dax").jsOr ((m.get "expression").jsOr (.str "")))
  let fs := m.fields
  let fs := setFieldL fs "businessMeaning" ((m.get "businessMeaning").jsOr (.str h.purpose))
  let fs := setFieldL fs "whenToUse" ((m.get "whenToUse").jsOr (.str h.whenToUse))
  let fs := setFieldL fs "successIndicators"
    (if isNonEmptyArr (m.get "successIndicators") then m.get "successIndicators"
     else .mkArr (h.successIndicators.map .str))
  let fs := setFieldL fs "risks"
    (if isNonEmptyArr (m.get "risks") then m.get "risks"
     else .mkArr (h.risks.map .str))
  .ok (.mkObj fs)

/-- `mapE f l` is the element-wise `Except` traversal used to model a
`.map` whose callback can throw: the first thrown error aborts the map. -/
def mapE {α β : Type} (f : α → Except Unit β) : List α → Except Unit (List β)
  | [] => .ok []
  | x :: t => do
    let y ← f x
    let ys ← mapE f t
    .ok (y :: ys)

/-- Lines 437–443 of `coerceSynthesis`: parse, then coerce the overview
fields in place.  `.error` models a thrown `TypeError`: a parsed payload
(or its `overview`) that is not a plain object makes the strict-mode
property writes of the original throw.  (An array-valued payload, whose
named-property writes JS would accept and `JSON.stringify` then discard,
is outside the modelled fragment and also maps to `.error`.) -/
def coerceOverview (o : JVal) (inputs : SynthesisInput) (ctx : AgentCtx) :
    Except Unit JVal := do
  let ofs ←
    match o with
    | .obj fs => Except.ok fs.toList
    | _ => Except.error ()
  let ov := (JVal.mkObj ofs).get "overview" |>.jsOr (.mkObj [])
  let ovfs ←
    match ov with
    | .obj fs => Except.ok fs.toList
    | _ => Except.error ()
  let ovfs := setFieldL ovfs "domain"
    (((JVal.mkObj ovfs).get "domain").jsOr
      ((inputs.domainAnalysis.metadata.get "domain").jsOr
        (ctx.domain.jsOr (.str "Business Intelligence"))))
  let ovfs := setFieldL ovfs "tables"
    (if ((JVal.mkObj ovfs).get "tables").isFiniteNum then (JVal.mkObj ovfs).get "tables"
     else .num (some (jsNumOfNat ctx.tables.length)))
  let ovfs := setFieldL ovfs "measures"
    (if ((JVal.mkObj ovfs).get "measures").isFiniteNum then (JVal.mkObj ovfs).get "measures"
     else .num (some (jsNumOfNat ctx.measures.length)))
  let ovfs := setFieldL ovfs "relationships"
    (if ((JVal.mkObj ovfs).get "relationships").isFiniteNum then (JVal.mkObj ovfs).get "relationships"
     else .num (some (jsNumOfNat ctx.relationships.length)))
  .ok (JVal.mkObj (setFieldL ofs "overview" (.mkObj ovfs)))

/-- Lines 451–464: ensure a tables array with recomputed column counts. -/
def coerceTables (o : JVal) (ctx : AgentCtx) : JVal :=
  let cc := colCounts ctx.columns
  if !isNonEmptyArr (o.get "tables") then
    o.set "tables" (.mkArr (ctx.tables.map fun t =>
      .mkObj
        [("name", t.get "name"),
         ("category", .str "Regular"),
         ("columns", .num (some (jsNumOfNat ((lookupCount cc (tblKey t)).getD 0)))),
         ("summary", (t.get "description").jsOr (.str ""))]))
  else
    o.set "tables" (.mkArr ((o.get "tables").elems.map fun t =>
      .mkObj (setFieldL t.fields "columns" (patchedColumns cc t))))

/-- Lines 466–474: ensure relationships are present. -/
def coerceRels (o : JVal) (ctx : AgentCtx) : JVal :=
  if !isNonEmptyArr (o.get "relationships") then
    o.set "relationships" (.mkArr (ctx.relationships.map fun r =>
      .mkObj
        [("from", .str (jsToString (r.get "fromTable") ++ "[" ++
           jsToString (r.get "fromColumn") ++ "]")),
         ("to", .str (jsToString (r.get "toTable") ++ "[" ++
           jsToString (r.get "toColumn") ++ "]")),
         ("cardinality", (r.get "cardinality").jsOr (.str "Many-to-One")),
         ("direction", .str "Single")]))
  else o

/-- Lines 476–512: ensure measures are present, with heuristic fallbacks
(`rebuiltMeasure` when the stage array is absent or empty, `mergedMeasure`
on each stage entry otherwise). -/
def coerceMeasures (o : JVal) (ctx : AgentCtx) : Except Unit JVal :=
  if !isNonEmptyArr (o.get "measures") then do
    let ms ← mapE rebuiltMeasure ctx.measures
    .ok (o.set "measures" (.mkArr ms))
  else do
    let ms ← mapE mergedMeasure (o.get "measures").elems
    .ok (o.set "measures" (.mkArr ms))

/-- Lines 514–515: keep `lintFindings` if present, else take Agent 4's,
else `[]`. -/
def coerceLint (o : JVal) (inputs : SynthesisInput) : JVal :=
  o.set "lintFindings"
    ((o.get "lintFindings").jsOr
      ((inputs.daxAnalysis.metadata.get "lintFindings").jsOr (.mkArr [])))

/-- `coerceSynthesis` (agent-5 lines 432–518), assembled from the stage
functions above in source order. -/
def coerceSynthesis (raw : JVal) (inputs : SynthesisInput) (ctx : AgentCtx) :
    Except Unit JVal := do
  let o := parseJson raw (.mkObj [])
  let o ← coerceOverview o inputs ctx
  let o := coerceTables o ctx
  let o := coerceRels o ctx
  let o ← coerceMeasures o ctx
  .ok (coerceLint o inputs)

end ReportSynthesis

/-! ## agent-orchestrator.ts — `AgentOrchestrator` -/

namespace AgentOrchestrator
open ReportSynthesis (SynthesisInput colCounts lookupCount tblKey patchedColumns isNonEmptyArr setFieldL)

/-- `safeParseJson` (orchestrator lines 1749–1754): strings are parsed
(`null`, i.e. a falsy value, on failure); non-strings pass through. -/
def safeParseJson (v : JVal) : JVal :=
  match v with
  | .str s => (jsonParse s).getD .jnull
  | _ => v

/-- `fallback(agentType, err)` (orchestrator lines 1351–1398): the
stage-specific fallback `AgentResult` with confidence 0 (the wall-clock
`timestamp` metadata entry is not modelled). -/
def fallback (agentType : String) (err : JVal) : AgentResult :=
  let fallbackAnalysis : JVal :=
    if agentType = "Business Glossary" then
      .mkObj
        [("overview", .mkObj
          [("domain", .str "Unknown"), ("primaryUse", .str "Data analysis"),
           ("stakeholders", .mkArr []), ("categories", .mkArr []), ("notes", .mkArr [])]),
         ("terms", .mkArr []), ("metricQuickRef", .mkArr []),
         ("confidence", .num (some ⟨0, 1⟩))]
    else if agentType = "Data Architecture" then
      .mkObj
        [("overview", .mkObj
          [("tables", .num (some ⟨0, 1⟩)), ("columns", .num (some ⟨0, 1⟩)),
           ("relationships", .num (some ⟨0, 1⟩)), ("schemaType", .str "Unknown"),
           ("notes", .mkArr [])]),
         ("tables", .mkArr []), ("relationships", .mkArr []), ("lineage", .mkArr []),
         ("governance", .mkObj
          [("hiddenTables", .mkArr []), ("hiddenColumns", .mkArr []),
           ("dataQualityFlags", .mkArr []), ("risks", .mkArr [])]),
         ("issues", .mkArr []), ("confidence", .num (some ⟨0, 1⟩))]
    else if agentType = "DAX Analysis" then
      .mkArr []
    else
      .str ("Agent failed: " ++ jsToString ((err.get "message").jsOr err))
  { agentType := agentType
    analysis := .str ((jsonStringify fallbackAnalysis).getD "")
    confidence := some ⟨0, 1⟩
    metadata := .mkObj
      [("error", .str (jsToString ((err.get "stack").jsOr err))),
       ("fallbackProvided", .bool true)] }

/-- The `Promise.allSettled` join (orchestrator lines 1163–1171): a
fulfilled outcome keeps its value, a rejected one is replaced by the
stage-specific `fallback`. -/
def settle (agentType : String) : Except JVal AgentResult → AgentResult
  | .ok v => v
  | .error e => fallback agentType e

/-- The data-dependent skip of the measure-analysis stage (orchestrator
lines 1151–1161): zero measures short-circuit to a confidence-1 result
without an external call. -/
def skipDaxResult : AgentResult :=
  { agentType := "DAX Analyzer & Measure Interpretation"
    analysis := .str "No measures found in input; DAX analysis skipped."
    confidence := some ⟨1, 1⟩
    metadata := .mkObj
      [("inputData", .mkObj
        [("measuresCount", .num (some ⟨0, 1⟩)), ("analyzed", .num (some ⟨0, 1⟩)),
         ("complexMeasures", .mkArr [])]),
       ("lintFindings", .mkArr []),
       ("lintSummary", .mkObj
        [("warnings", .num (some ⟨0, 1⟩)), ("infos", .num (some ⟨0, 1⟩)),
         ("errors", .num (some ⟨0, 1⟩))])] }

/-- `DomainClassifierAgent.extractDomainContext` (agent-1 lines 201–221),
invoked by the orchestrator at line 1134.  `.error` models the spread of
a non-iterable stakeholder field. -/
def extractDomainContext (r : AgentResult) : Except JVal (JVal × JVal × JVal) := do
  let obj := safeParseJson (.str (jsToString r.analysis))
  if obj.truthy then
    let stk := obj.get "stakeholders"
    let p1 ← (DomainClassifier.spreadIter ((stk.get "primary").nullish (.mkArr []))).mapError
      fun _ => JVal.mkObj [("message", .str "value is not iterable")]
    let p2 ← (DomainClassifier.spreadIter ((stk.get "management").nullish (.mkArr []))).mapError
      fun _ => JVal.mkObj [("message", .str "value is not iterable")]
    let p3 ← (DomainClassifier.spreadIter ((stk.get "support").nullish (.mkArr []))).mapError
      fun _ => JVal.mkObj [("message", .str "value is not iterable")]
    .ok ((obj.get "domain").jsOr (.str "Business Intelligence"),
      .mkArr ((p1 ++ p2 ++ p3).filter JVal.truthy),
      ((obj.get "executiveSummary").get "purpose").jsOr (.str ""))
  else
    .ok (.str (jsToString ((r.metadata.get "domain").jsOr (.str "Business Intelligence"))),
      (r.metadata.get "stakeholders").jsOr (.mkArr []),
      .str (jsToString ((r.metadata.get "businessContext").jsOr (.str ""))))

/-- The synthesis-JSON normalisation for polish (orchestrator lines
1189–1197): parse the analysis string; on failure extract the last
`{…}` block (itself parsed unprotectedly — a parse failure there throws
out of the catch) or fall back to an empty report skeleton. -/
def normaliseSynthesisObj (analysis : JVal) : Except JVal JVal :=
  match analysis with
  | .str s =>
    match jsonParse s with
    | some v => .ok v
    | none =>
      match DomainClassifier.lastBraceSlice (jsToString (.str s)) with
      | some sub =>
        match jsonParse sub with
        | some v => .ok v
        | none => .error (.mkObj [("message", .str "Unexpected token in JSON")])
      | none =>
        .ok (.mkObj
          [("overview", .mkObj []), ("measures", .mkArr []),
           ("tables", .mkArr []), ("relationships", .mkArr [])])
  | v => .ok v

/-- Weight 2 for `/DAX|Synthesis|Polish/i`-matching agent types, else 1
(orchestrator lines 1331–1332). -/
def weight (r : AgentResult) : Nat :=
  let t := lowerS (jsToString (.str r.agentType))
  if containsS "dax" t || containsS "synthesis" t || containsS "polish" t then 2 else 1

/-- `calculateOverallConfidence` (orchestrator lines 1330–1340):
weighted mean over the finite confidences. -/
def calculateOverallConfidence (rs : List AgentResult) : JsNum :=
  let step := fun (acc : JsNum × Nat) (r : AgentResult) =>
    match r.confidence with
    | some c =>
      (mkJsNum (acc.1.num * c.den + c.num * weight r * acc.1.den)
        (acc.1.den * c.den), acc.2 + weight r)
    | none => acc
  let (sum, wt) := rs.foldl step (⟨0, 1⟩, 0)
  if wt = 0 then ⟨0, 1⟩ else mkJsNum sum.num (sum.den * wt)

/-- The orchestrator safety patch (orchestrator lines 1257–1285): fill an
absent/empty `measures` array from the parsed context and recompute table
column counts; a payload that does not parse is kept unchanged (the
enclosing `catch`), and a non-object payload is kept unchanged up to JSON
re-rendering (property writes on a parsed primitive throw into the
`catch`; named-property writes on a parsed array are discarded by
`JSON.stringify`). -/
def safetyPatchObj (o : JVal) (ctx : AgentCtx) : JVal :=
  let o :=
    if !isNonEmptyArr (o.get "measures") then
      o.set "measures" (.mkArr (ctx.measures.map fun m =>
        .mkObj
          [("name", m.get "name"),
           ("businessMeaning", .str ""),
           ("whenToUse", .str ""),
           ("successIndicators", .str ""),
           ("dax", (m.get "expression").jsOr (.str "")),
           ("folder", (m.get "displayFolder").jsOr (.str "")),
           ("description", (m.get "description").jsOr (.str ""))]))
    else o
  let cc := colCounts ctx.columns
  if (o.get "tables").isArr then
    o.set "tables" (.mkArr ((o.get "tables").elems.map fun t =>
      .mkObj (setFieldL t.fields "columns" (patchedColumns cc t))))
  else o

def safetyPatch (payload : String) (ctx : AgentCtx) : String :=
  match jsonParse payload with
  | none => payload
  | some (JVal.arr xs) => (jsonStringify (.arr xs)).getD payload
  | some (JVal.obj fs) => (jsonStringify (safetyPatchObj (.obj fs) ctx)).getD payload
  | some _ => payload

/-- The inputs handed to the polish stage (orchestrator lines 1203–1217):
the enriched context, the normalised synthesis object, the fixed `stats`
(domain and entity counts from the pre-enrichment context), and the
parsed glossary. -/
structure PolishIn where
  ctx : AgentCtx
  rawReport : JVal
  stats : JVal
  businessGlossary : JVal
deriving DecidableEq, Repr

/-- The per-run stage behaviours, each already wrapped in
`withRetry` where the source wraps it: a stage function yields the
settled outcome (fulfilled result or rejection reason) of
`withRetry(() => agentN.analyze(...))`. -/
structure StageFns where
  agent1 : AgentCtx → Except JVal AgentResult
  agent2 : AgentCtx → Except JVal AgentResult
  agent3 : AgentCtx → Except JVal AgentResult
  agent4 : AgentCtx → Except JVal AgentResult
  agent5 : SynthesisInput → AgentCtx → Except JVal AgentResult
  agent6 : PolishIn → Except JVal AgentResult

/-- The stage-result slots of `OrchestrationResult` (orchestrator result
assembly, lines 1304–1319) together with the aggregated confidence.  The
final-payload post-processing between polish and return (contextual
insights, size guard, safety patch, artifact writing) is not part of this
control-flow model; the safety patch, which claims C1–C2 cite, is
modelled separately above as `safetyPatch`. -/
structure OrchResult where
  domainAnalysis : AgentResult
  businessGlossary : AgentResult
  dataArchitecture : AgentResult
  daxAnalysis : AgentResult
  reportSynthesis : AgentResult
  contentPolish : AgentResult
  overallConfidence : JsNum

/-- STEP 1 of the run (orchestrator lines 1131–1136): classification
(whose rejection propagates) followed by `extractDomainContext`, giving
the enriched context handed to every later stage. -/
def enrichedCtxOf (fns : StageFns) (ctx : AgentCtx) :
    Except JVal (AgentResult × AgentCtx) := do
  let domainResult ← fns.agent1 ctx
  let (dom, stk, bctx) ← extractDomainContext domainResult
  .ok (domainResult,
    { ctx with domain := dom, stakeholders := stk, businessContext := bctx })

/-- STEP 2 join (orchestrator lines 1147–1182): the three parallel
stages, each settled to its value or its stage-specific fallback, bundled
with the classification result as the synthesis inputs. -/
def synthInputsOf (fns : StageFns) (domainResult : AgentResult)
    (enriched : AgentCtx) : SynthesisInput :=
  { domainAnalysis := domainResult
    businessGlossary := settle "Business Glossary" (fns.agent2 enriched)
    dataArchitecture := settle "Data Architecture" (fns.agent3 enriched)
    daxAnalysis := settle "DAX Analysis"
      (if enriched.measures.length > 0 then fns.agent4 enriched else .ok skipDaxResult) }

/-- Stage sequencing of `orchestrateWithSharedClient` (orchestrator lines
1120–1328): classification first (a rejection propagates); the three
middle stages settle independently, a rejection never escaping
(`Promise.allSettled` + `fallback`), with the measure-analysis stage
skipped outright when the context has no measures; then synthesis and
polish (rejections propagate).  The bounded-concurrency limiter
(`pLimit(3)`) affects scheduling only, not settled outcomes, and has no
observable effect in this model. -/
def orchestrate (fns : StageFns) (ctx : AgentCtx) : Except JVal OrchResult := do
  let (domainResult, enriched) ← enrichedCtxOf fns ctx
  let inputs := synthInputsOf fns domainResult enriched
  let glossaryResult := inputs.businessGlossary
  let architectureResult := inputs.dataArchitecture
  let daxResult := inputs.daxAnalysis
  let reportSynthesis ← fns.agent5 inputs enriched
  let synthesisObj ← normaliseSynthesisObj reportSynthesis.analysis
  let stats : JVal := .mkObj
    [("domain", enriched.domain.nullish (ctx.domain.nullish (.str "Business Intelligence"))),
     ("tables", .num (some (jsNumOfNat ctx.tables.length))),
     ("measures", .num (some (jsNumOfNat ctx.measures.length))),
     ("relationships", .num (some (jsNumOfNat ctx.relationships.length)))]
  let glossObj : JVal :=
    match jsonParse (jsToString glossaryResult.analysis) with
    | some v => v
    | none => .mkObj []
  let contentPolish ← fns.agent6
    { ctx := enriched, rawReport := synthesisObj, stats := stats, businessGlossary := glossObj }
  .ok
    { domainAnalysis := domainResult
      businessGlossary := glossaryResult
      dataArchitecture := architectureResult
      daxAnalysis := daxResult
      reportSynthesis := reportSynthesis
      contentPolish := contentPolish
      overallConfidence := calculateOverallConfidence
        [domainResult, glossaryResult, architectureResult, daxResult,
         reportSynthesis, contentPolish] }

end AgentOrchestrator

/-! ## Specification-side definitions for the refinement claims -/

namespace MeasureHeuristics

/-- The percent rule of `inferKind` as one condition (`&&` binds tighter
than `||` in the source line 31). -/
def percentCond (name : String) (expression : Option String) : Bool :=
  percentNameTest (lowerS name) ||
    (divideCallTest (upperS (expression.getD "")) && hundredTest (upperS (expression.getD "")))

def ratioCond (expression : Option String) : Bool :=
  divideCallTest (upperS (expression.getD ""))

def avgCond (name : String) (expression : Option String) : Bool :=
  averageTestE (upperS (expression.getD "")) || avgNameTest (lowerS name)

def countCond (name : String) (expression : Option String) : Bool :=
  countTestE (upperS (expression.getD "")) || countNameTest (lowerS name)

def sumCond (name : String) (expression : Option String) : Bool :=
  sumTestE (upperS (expression.getD "")) || totalSumNameTest (lowerS name)

def timeIntelCond (expression : Option String) : Bool :=
  timeIntelTestE (upperS (expression.getD ""))

/-- Modelled from the spec's wording of the classification discipline:
the ordered rule list `percent > ratio > average > count > sum >
time-intelligence`, to be consumed first-match-wins with default
`other`. -/
def specKindRules (name : String) (expression : Option String) : List (Bool × MKind) :=
  [(percentCond name expression, .percent),
   (ratioCond expression, .ratio),
   (avgCond name expression, .avg),
   (countCond name expression, .count),
   (sumCond name expression, .sum),
   (timeIntelCond expression, .timeIntel)]

/-- Modelled from the spec's wording: "first matching rule wins", with
`other` when no rule matches. -/
def specFirstMatch : List (Bool × MKind) → MKind
  | [] => .other
  | (true, k) :: _ => k
  | (false, _) :: t => specFirstMatch t

end MeasureHeuristics

/-! ## Concrete inputs used by the counterexamples and witnesses -/

namespace Cex

/-- A parser context with two measures, one table `Sales`, and two parsed
columns whose `tableName` matches `Sales` case-insensitively. -/
def ctx2 : AgentCtx :=
  { measures :=
      [.mkObj [("name", .str "Total Sales"), ("expression", .str "SUM(Sales[Amount])")],
       .mkObj [("name", .str "Order Count"), ("expression", .str "COUNTROWS(Orders)")]]
    tables := [.mkObj [("name", .str "Sales"), ("description", .str "sales fact")]]
    columns := [.mkObj [("tableName", .str "Sales"), ("name", .str "Amount")],
      .mkObj [("tableName", .str "sales"), ("name", .str "Qty")]]
    relationships := [] }

/-- Neutral synthesis inputs (no metadata contributions). -/
def inputs0 : ReportSynthesis.SynthesisInput :=
  { domainAnalysis := ⟨"Domain Classifier", .str "", some ⟨1, 1⟩, .mkObj []⟩
    businessGlossary := ⟨"Business Glossary & Terminology", .str "", some ⟨1, 1⟩, .mkObj []⟩
    dataArchitecture := ⟨"Data Architecture Intelligence", .str "", some ⟨1, 1⟩, .mkObj []⟩
    daxAnalysis := ⟨"DAX Analyzer & Measure Interpretation", .str "", some ⟨1, 1⟩, .mkObj []⟩ }

/-- A generation-stage synthesis payload that under-produces: one measure
entry while the parsed input has two. -/
def stageUnder : JVal :=
  .mkObj [("measures", .mkArr [.mkObj [("name", .str "Total Sales")]])]

/-- A generation-stage payload whose `tables` entry `Ghost` matches no
parsed column and carries a stage-supplied count `5`, next to a `SALES`
entry with a wrong stage-supplied count `99`. -/
def stageTables : JVal :=
  .mkObj [("tables", .mkArr
    [.mkObj [("name", .str "Ghost"), ("columns", .num (some ⟨5, 1⟩))],
     .mkObj [("name", .str "SALES"), ("columns", .num (some ⟨99, 1⟩))]])]

/-- The under-produced payload as the polish output string reaching the
orchestrator safety patch. -/
def payloadUnder : String :=
  "\x7b\"measures\":[\x7b\"name\":\"Total Sales\"\x7d]\x7d"

/-- A raw parse input whose single relationship carries
`CrossFilterDirection: "Both"`. -/
def rawBoth : JVal :=
  .mkObj [("relationships", .mkArr
    [.mkObj [("fromTable", .str "A"), ("fromColumn", .str "x"),
      ("toTable", .str "B"), ("toColumn", .str "y"),
      ("CrossFilterDirection", .str "Both")]])]

/-- A non-transient (HTTP 400 class) rejection reason. -/
def err400 : JVal := .mkObj [("status", .num (some ⟨400, 1⟩))]

/-- A transient (HTTP 500) rejection reason. -/
def err500 : JVal := .mkObj [("status", .num (some ⟨500, 1⟩))]

/-- A raw column row named `CustomerID`, not marked as a key. -/
def colCustomerID : JVal :=
  .mkObj [("tableName", .str "Customer"), ("name", .str "CustomerID")]

def colCustomerUnderscoreID : JVal :=
  .mkObj [("tableName", .str "Customer"), ("name", .str "Customer_ID")]

def colCustomerSpaceKey : JVal :=
  .mkObj [("tableName", .str "Customer"), ("name", .str "Customer Key")]

/-- A trivial successful classification result. -/
def domRes0 : AgentResult := ⟨"Domain Classifier", .str "", some ⟨1, 1⟩, .mkObj []⟩

/-- A trivial successful architecture result. -/
def archRes0 : AgentResult := ⟨"Data Architecture Intelligence", .str "", some ⟨1, 1⟩, .mkObj []⟩

/-- A trivial successful synthesis result. -/
def synthRes0 : AgentResult := ⟨"Report Synthesis & Layout", .str "", some ⟨1, 1⟩, .mkObj []⟩

/-- A trivial successful polish result. -/
def polishRes0 : AgentResult := ⟨"Content Polish", .str "", some ⟨1, 1⟩, .mkObj []⟩

/-- Stage functions where the glossary and measure-analysis stages
reject and all sequential stages succeed. -/
def fnsW : AgentOrchestrator.StageFns :=
  { agent1 := fun _ => .ok domRes0
    agent2 := fun _ => .error err500
    agent3 := fun _ => .ok archRes0
    agent4 := fun _ => .error err400
    agent5 := fun _ _ => .ok synthRes0
    agent6 := fun _ => .ok polishRes0 }

/-- The enriched context STEP 1 produces from `ctx2` under `fnsW`. -/
def enrW : AgentCtx :=
  { ctx2 with
    domain := .str "Business Intelligence"
    stakeholders := .mkArr []
    businessContext := .str "" }

end Cex

/-- Modelled from the spec's wording for C9: the column name "ends with
`id` or `key` (case-insensitive)", with no requirement on the preceding
character. -/
def specEndsIdKey (name : String) : Bool :=
  List.isSuffixOf "id".data (lowerS name).data ||
  List.isSuffixOf "key".data (lowerS name).data

/-- A parsed record set with every relationship direction collapsed to
`Single`; renormalisation maps a normalised output to exactly this. -/
def directionErased (p : CSVParserAgent.ParsedData) : CSVParserAgent.ParsedData :=
  { p with relationships := p.relationships.map fun r => { r with direction := .single } }


/-! # Infrastructure lemmas -/

theorem charToNatOfNat (n : Nat) (h : n.isValidChar) : (Char.ofNat n).toNat = n := by
  unfold Char.ofNat
  rw [dif_pos h]
  simp [Char.ofNatAux, Char.toNat, UInt32.toNat]

/-- ASCII case mapping: upper-casing factors through lower-casing. -/
theorem toUpper_toLower (c : Char) : c.toLower.toUpper = c.toUpper := by
  simp only [Char.toLower, Char.toUpper]
  by_cases h : c.toNat ≥ 65 ∧ c.toNat ≤ 90
  · rw [if_pos h]
    have hv : (c.toNat + 32).isValidChar := Or.inl (by omega)
    have ht : (Char.ofNat (c.toNat + 32)).toNat = c.toNat + 32 := charToNatOfNat _ hv
    rw [ht]
    rw [if_pos (by omega : c.toNat + 32 ≥ 97 ∧ c.toNat + 32 ≤ 122), if_neg (by omega)]
    have h32 : c.toNat + 32 - 32 = c.toNat := by omega
    rw [h32, Char.ofNat_toNat]
  · rw [if_neg h]

/-- Strings equal after lower-casing are equal after upper-casing. -/
theorem upperS_congr_of_lowerS {s t : String} (h : lowerS s = lowerS t) :
    upperS s = upperS t := by
  have hd : s.data.map Char.toLower = t.data.map Char.toLower :=
    congrArg String.data h
  have key : ∀ u : List Char,
      u.map Char.toUpper = (u.map Char.toLower).map Char.toUpper := by
    intro u
    rw [List.map_map]
    exact (List.map_congr_left fun c _ => (toUpper_toLower c).symm)
  show (⟨s.data.map Char.toUpper⟩ : String) = ⟨t.data.map Char.toUpper⟩
  rw [key s.data, key t.data, hd]

theorem dropWhile_cons_head_not {p : Char → Bool} {l : List Char} {c : Char}
    {t : List Char} (h : l.dropWhile p = c :: t) : p c = false := by
  induction l with
  | nil => simp at h
  | cons x xs ih =>
    rw [List.dropWhile_cons] at h
    by_cases hx : p x
    · exact ih (by simpa [hx] using h)
    · simp [hx] at h
      rw [← h.1]
      exact Bool.of_not_eq_true hx

/-- JS `trim()` is idempotent. -/
theorem jsTrimL_idem (l : List Char) : jsTrimL (jsTrimL l) = jsTrimL l := by
  unfold jsTrimL
  set y := l.dropWhile jsWs with hy
  set z := (y.reverse.dropWhile jsWs).reverse with hz
  have hzrev : z.reverse = y.reverse.dropWhile jsWs := by rw [hz, List.reverse_reverse]
  have step1 : z.dropWhile jsWs = z := by
    match hcz : z with
    | [] => simp
    | c :: t =>
      have hpre : (c :: t) <+: y := by
        rw [← List.reverse_suffix, hzrev]
        exact List.dropWhile_suffix jsWs
      obtain ⟨r, hr⟩ := hpre
      have hyc : y.dropWhile jsWs = c :: (t ++ r) := by
        have : y = c :: (t ++ r) := by rw [← hr]; simp
        rw [this]
        have hc : jsWs c = false := by
          have : l.dropWhile jsWs = c :: (t ++ r) := by rw [← hy, this]
          exact dropWhile_cons_head_not this
        simp [List.dropWhile_cons, hc]
      have hc : jsWs c = false := dropWhile_cons_head_not hyc
      simp [List.dropWhile_cons, hc]
  rw [step1, hzrev, List.dropWhile_idempotent, ← hzrev, List.reverse_reverse]

theorem strTrim_idem (s : String) : strTrim (strTrim s) = strTrim s := by
  show (⟨jsTrimL (jsTrimL s.data)⟩ : String) = ⟨jsTrimL s.data⟩
  rw [jsTrimL_idem]

theorem JArr.toList_ofList (l : List JVal) : (JArr.ofList l).toList = l := by
  induction l with
  | nil => rfl
  | cons x t ih => simp [JArr.ofList, JArr.toList, ih]

theorem JObj.toList_ofList_fields (l : List (String × JVal)) : (JObj.ofList l).toList = l := by
  induction l with
  | nil => rfl
  | cons x t ih =>
    obtain ⟨k, v⟩ := x
    simp [JObj.ofList, JObj.toList, ih]

theorem JVal.elems_mkArr (l : List JVal) : (JVal.mkArr l).elems = l :=
  JArr.toList_ofList l

theorem JVal.fields_mkObj (l : List (String × JVal)) : (JVal.mkObj l).fields = l :=
  JObj.toList_ofList_fields l

theorem JVal.isArr_mkArr (l : List JVal) : (JVal.mkArr l).isArr = true := rfl

/-- Find over a list-level in-place update, same key. -/
theorem JObj.find_ofList_setFieldL_same (fs : List (String × JVal)) (k : String) (v : JVal) :
    (JObj.ofList (ReportSynthesis.setFieldL fs k v)).find k = some v := by
  induction fs with
  | nil => simp [ReportSynthesis.setFieldL, JObj.ofList, JObj.find]
  | cons x t ih =>
    obtain ⟨k', v'⟩ := x
    by_cases h : k' = k
    · simp [ReportSynthesis.setFieldL, h, JObj.ofList, JObj.find]
    · simp [ReportSynthesis.setFieldL, h, JObj.ofList, JObj.find, ih]

/-- Find over a list-level in-place update, other key. -/
theorem JObj.find_ofList_setFieldL_ne (fs : List (String × JVal)) (k k' : String) (v : JVal)
    (h : k' ≠ k) :
    (JObj.ofList (ReportSynthesis.setFieldL fs k v)).find k' = (JObj.ofList fs).find k' := by
  induction fs with
  | nil => simp [ReportSynthesis.setFieldL, JObj.ofList, JObj.find, Ne.symm h]
  | cons x t ih =>
    obtain ⟨k0, v0⟩ := x
    by_cases h0 : k0 = k
    · subst h0
      simp [ReportSynthesis.setFieldL, JObj.ofList, JObj.find, Ne.symm h, h]
    · by_cases h1 : k0 = k'
      · simp [ReportSynthesis.setFieldL, h0, JObj.ofList, JObj.find, h1, h]
      · simp [ReportSynthesis.setFieldL, h0, JObj.ofList, JObj.find, h1, ih]

/-- `get` after `mkObj ∘ setFieldL`, same key. -/
theorem JVal.get_mkObj_setFieldL_same (fs : List (String × JVal)) (k : String) (v : JVal) :
    (JVal.mkObj (ReportSynthesis.setFieldL fs k v)).get k = v := by
  show ((JObj.ofList (ReportSynthesis.setFieldL fs k v)).find k).getD .undef = v
  rw [JObj.find_ofList_setFieldL_same]
  rfl

theorem JVal.get_mkObj_setFieldL_ne (fs : List (String × JVal)) (k k' : String) (v : JVal)
    (h : k' ≠ k) :
    (JVal.mkObj (ReportSynthesis.setFieldL fs k v)).get k' = (JVal.mkObj fs).get k' := by
  show ((JObj.ofList (ReportSynthesis.setFieldL fs k v)).find k').getD .undef = _
  rw [JObj.find_ofList_setFieldL_ne _ _ _ _ h]
  rfl

theorem JObj.find_setF_same (fs : JObj) (k : String) (v : JVal) :
    (fs.setF k v).find k = some v := by
  match fs with
  | .nil => simp [JObj.setF, JObj.find]
  | .cons k' v' t =>
    by_cases h : k' = k
    · simp [JObj.setF, h, JObj.find]
    · simp [JObj.setF, h, JObj.find, JObj.find_setF_same t k v]

theorem JObj.find_setF_ne (fs : JObj) (k k' : String) (v : JVal) (h : k' ≠ k) :
    (fs.setF k v).find k' = fs.find k' := by
  match fs with
  | .nil => simp [JObj.setF, JObj.find, Ne.symm h]
  | .cons k0 v0 t =>
    by_cases h0 : k0 = k
    · subst h0
      simp [JObj.setF, JObj.find, Ne.symm h]
    · by_cases h1 : k0 = k'
      · simp [JObj.setF, h0, JObj.find, h1, h]
      · simp [JObj.setF, h0, JObj.find, h1, JObj.find_setF_ne t k k' v h]

/-- `set` on an object, read back at the same key. -/
theorem JVal.get_set_obj_same (fs : JObj) (k : String) (v : JVal) :
    ((JVal.obj fs).set k v).get k = v := by
  show ((fs.setF k v).find k).getD .undef = v
  rw [JObj.find_setF_same]
  rfl

theorem JVal.get_set_obj_ne (fs : JObj) (k k' : String) (v : JVal) (h : k' ≠ k) :
    ((JVal.obj fs).set k v).get k' = (JVal.obj fs).get k' := by
  show ((fs.setF k v).find k').getD .undef = (fs.find k').getD .undef
  rw [JObj.find_setF_ne _ _ _ _ h]

/-- `set` preserves objecthood. -/
theorem JVal.isObj_set (fs : JObj) (k : String) (v : JVal) :
    ∃ fs', (JVal.obj fs).set k v = JVal.obj fs' := ⟨fs.setF k v, rfl⟩

/-- `mapE` preserves length. -/
theorem ReportSynthesis.mapE_ok_length {α β : Type} (f : α → Except Unit β)
    (l : List α) (ys : List β) (h : ReportSynthesis.mapE f l = .ok ys) :
    ys.length = l.length := by
  induction l generalizing ys with
  | nil =>
    simp [ReportSynthesis.mapE] at h
    simp [← h]
  | cons x t ih =>
    simp only [ReportSynthesis.mapE] at h
    match hx : f x with
    | .error e => rw [hx] at h; simp [Bind.bind, Except.bind] at h
    | .ok y =>
      rw [hx] at h
      match ht : ReportSynthesis.mapE f t with
      | .error e => rw [ht] at h; simp [Bind.bind, Except.bind] at h
      | .ok ys' =>
        rw [ht] at h
        simp [Bind.bind, Except.bind, pure, Except.pure] at h
        subst h
        simp [ih ys' ht]

/-! ### Measure de-duplication lemmas -/

namespace CSVParserAgent

theorem dedupMeasures_mem_key_not_seen {seen : List String} {l : List MeasureRec}
    {m : MeasureRec} (h : m ∈ dedupMeasures seen l) : lowerS m.name ∉ seen := by
  induction l generalizing seen with
  | nil => simp [dedupMeasures] at h
  | cons x t ih =>
    rw [dedupMeasures] at h
    by_cases hx : lowerS x.name ∈ seen
    · rw [if_pos hx] at h
      exact ih h
    · rw [if_neg hx] at h
      rcases List.mem_cons.mp h with h1 | h1
      · subst h1; exact hx
      · have := ih h1
        intro hc
        exact this (List.mem_cons_of_mem _ hc)

theorem dedupMeasures_sublist (seen : List String) (l : List MeasureRec) :
    (dedupMeasures seen l).Sublist l := by
  induction l generalizing seen with
  | nil => simp [dedupMeasures]
  | cons x t ih =>
    rw [dedupMeasures]
    by_cases hx : lowerS x.name ∈ seen
    · rw [if_pos hx]
      exact (ih seen).cons x
    · rw [if_neg hx]
      exact (ih _).cons₂ x

theorem dedupMeasures_keys_nodup (seen : List String) (l : List MeasureRec) :
    ((dedupMeasures seen l).map fun m => lowerS m.name).Nodup := by
  induction l generalizing seen with
  | nil => simp [dedupMeasures]
  | cons x t ih =>
    rw [dedupMeasures]
    by_cases hx : lowerS x.name ∈ seen
    · rw [if_pos hx]; exact ih seen
    · rw [if_neg hx]
      refine List.nodup_cons.mpr ⟨?_, ih _⟩
      intro hc
      obtain ⟨m, hm, hk⟩ := List.mem_map.mp hc
      have := dedupMeasures_mem_key_not_seen hm
      rw [hk] at this
      exact this (List.mem_cons_self _ _)

theorem dedupMeasures_filter (seen : List String) (l : List MeasureRec) (k : String) :
    (dedupMeasures seen l).filter (fun m => lowerS m.name == k) =
      if k ∈ seen then [] else (l.filter fun m => lowerS m.name == k).take 1 := by
  induction l generalizing seen with
  | nil => simp [dedupMeasures]
  | cons x t ih =>
    rw [dedupMeasures]
    by_cases hx : lowerS x.name ∈ seen
    · rw [if_pos hx, ih]
      by_cases hk : k ∈ seen
      · simp [hk]
      · have hne : (lowerS x.name == k) = false := by
          simp only [beq_eq_false_iff_ne, ne_eq]
          intro hc; rw [hc] at hx; exact hk hx
        simp [hk, List.filter_cons, hne]
    · rw [if_neg hx, List.filter_cons, List.filter_cons]
      by_cases hxy : lowerS x.name = k
      · have hk : k ∉ seen := by rw [← hxy]; exact hx
        simp only [hxy, beq_self_eq_true, if_true, if_neg hk]
        rw [List.take_succ_cons, ih]
        have : k ∈ k :: seen := List.mem_cons_self _ _
        rw [hxy] at *
        simp [this]
      · have hne : (lowerS x.name == k) = false := by simp [hxy]
        simp only [hne, Bool.false_eq_true, if_false]
        rw [ih]
        by_cases hk : k ∈ seen
        · simp [hk, List.mem_cons, hk]
        · have : ¬ k ∈ lowerS x.name :: seen := by
            intro hc
            rcases List.mem_cons.mp hc with hc1 | hc1
            · exact hxy hc1.symm
            · exact hk hc1
          simp [this, hk]

/-- A list whose keys are already pairwise distinct and disjoint from
`seen` passes through `dedupMeasures` unchanged. -/
theorem dedupMeasures_of_nodup (seen : List String) (l : List MeasureRec)
    (hn : (l.map fun m => lowerS m.name).Nodup)
    (hs : ∀ m ∈ l, lowerS m.name ∉ seen) :
    dedupMeasures seen l = l := by
  induction l generalizing seen with
  | nil => rfl
  | cons x t ih =>
    rw [dedupMeasures, if_neg (hs x (List.mem_cons_self _ _))]
    congr 1
    rcases List.nodup_cons.mp hn with ⟨hx, ht⟩
    refine ih _ ht fun m hm => ?_
    intro hc
    rcases List.mem_cons.mp hc with hc1 | hc1
    · apply hx
      show lowerS x.name ∈ _
      rw [← hc1]
      exact List.mem_map_of_mem _ hm
    · exact hs m (List.mem_cons_of_mem _ hm) hc1

end CSVParserAgent

/-! ### Set-dedup and column-count lemmas -/

theorem jsSetDedup_go_mem_not_seen {seen : List String} {l : List String} {x : String}
    (h : x ∈ MeasureHeuristics.jsSetDedup.go seen l) : x ∉ seen := by
  induction l generalizing seen with
  | nil => simp [MeasureHeuristics.jsSetDedup.go] at h
  | cons y t ih =>
    rw [MeasureHeuristics.jsSetDedup.go] at h
    by_cases hy : y ∈ seen
    · rw [if_pos hy] at h
      exact ih h
    · rw [if_neg hy] at h
      rcases List.mem_cons.mp h with h1 | h1
      · subst h1; exact hy
      · have := ih h1
        intro hc
        exact this (List.mem_cons_of_mem _ hc)

theorem jsSetDedup_go_nodup (seen : List String) (l : List String) :
    (MeasureHeuristics.jsSetDedup.go seen l).Nodup := by
  induction l generalizing seen with
  | nil => simp [MeasureHeuristics.jsSetDedup.go]
  | cons y t ih =>
    rw [MeasureHeuristics.jsSetDedup.go]
    by_cases hy : y ∈ seen
    · rw [if_pos hy]; exact ih seen
    · rw [if_neg hy]
      refine List.nodup_cons.mpr ⟨?_, ih _⟩
      intro hc
      exact jsSetDedup_go_mem_not_seen hc (List.mem_cons_self _ _)

/-- `new Set(...)` iteration yields pairwise distinct entries. -/
theorem jsSetDedup_nodup (l : List String) : (MeasureHeuristics.jsSetDedup l).Nodup :=
  jsSetDedup_go_nodup [] l

namespace ReportSynthesis

theorem lookupCount_bump_same (m : List (String × Nat)) (k : String) :
    lookupCount (colCounts.bump m k) k = some ((lookupCount m k).getD 0 + 1) := by
  induction m with
  | nil => simp [colCounts.bump, lookupCount]
  | cons x t ih =>
    obtain ⟨k', n⟩ := x
    by_cases h : k' = k
    · simp [colCounts.bump, h, lookupCount]
    · simp [colCounts.bump, h, lookupCount, ih]

theorem lookupCount_bump_ne (m : List (String × Nat)) (k k' : String) (h : k' ≠ k) :
    lookupCount (colCounts.bump m k) k' = lookupCount m k' := by
  induction m with
  | nil => simp [colCounts.bump, lookupCount, Ne.symm h]
  | cons x t ih =>
    obtain ⟨k0, n⟩ := x
    by_cases h0 : k0 = k
    · subst h0
      simp [colCounts.bump, lookupCount, Ne.symm h]
    · by_cases h1 : k0 = k'
      · simp [colCounts.bump, h0, lookupCount, h1, h]
      · simp [colCounts.bump, h0, lookupCount, h1, ih]

theorem lookupCount_foldl (cols : List JVal) (acc : List (String × Nat)) (k : String) :
    lookupCount (cols.foldl (fun m c => colCounts.bump m (colKey c)) acc) k =
      match lookupCount acc k with
      | some m => some (m + (cols.filter fun c => colKey c == k).length)
      | none =>
        if (cols.filter fun c => colKey c == k).length = 0 then none
        else some (cols.filter fun c => colKey c == k).length := by
  induction cols generalizing acc with
  | nil =>
    match h : lookupCount acc k with
    | some m => simp [h]
    | none => simp [h]
  | cons c t ih =>
    rw [List.foldl_cons, ih, List.filter_cons]
    by_cases hc : colKey c = k
    · have hcb : (colKey c == k) = true := by simp [hc]
      rw [hc, lookupCount_bump_same]
      cases h : lookupCount acc k with
      | some m =>
        simp only [h, Option.getD_some, hcb, if_true, List.length_cons]
        have : m + 1 + (List.filter (fun c_1 => colKey c_1 == k) t).length =
            m + ((List.filter (fun c_1 => colKey c_1 == k) t).length + 1) := by omega
        simp [this]
      | none =>
        simp only [h, Option.getD_none, hcb, if_true, List.length_cons]
        have : 0 + 1 + (List.filter (fun c_1 => colKey c_1 == k) t).length =
            (List.filter (fun c_1 => colKey c_1 == k) t).length + 1 := by omega
        simp [this]
    · have hcb : (colKey c == k) = false := by simp [hc]
      rw [lookupCount_bump_ne _ _ _ (fun hh => hc hh.symm)]
      simp [hcb]

/-- `colCounts` counts exactly the context columns whose lower-cased
`tableName` equals the key; the key is absent exactly when no column
matches. -/
theorem lookupCount_colCounts (cols : List JVal) (k : String) :
    lookupCount (colCounts cols) k =
      (if (cols.filter fun c => colKey c == k).length = 0 then none
       else some (cols.filter fun c => colKey c == k).length) := by
  have := lookupCount_foldl cols [] k
  simpa [colCounts, lookupCount] using this

end ReportSynthesis

/-- A string append with a non-empty left part is non-empty. -/
theorem strAppend_left_ne_empty (a b : String) (ha : a ≠ "") : a ++ b ≠ "" := by
  intro h
  apply ha
  have hd : a.data ++ b.data = [] := by
    have hx := congrArg String.data h
    simpa [String.data_append] using hx
  exact String.ext (List.append_eq_nil.mp hd).1

/-- A string append with a non-empty right part is non-empty. -/
theorem strAppend_right_ne_empty (a b : String) (hb : b ≠ "") : a ++ b ≠ "" := by
  intro h
  apply hb
  have hd : a.data ++ b.data = [] := by
    have hx := congrArg String.data h
    simpa [String.data_append] using hx
  exact String.ext (List.append_eq_nil.mp hd).2

/-! # Claims -/

/-- C5 counterexample: a non-transient failure (HTTP 400) is still
retried — `withRetry` invokes the operation three times instead of
failing immediately after the first attempt, because the loop retries on
`transient-code OR attempts-remaining` (retry.ts line 7). -/
theorem claim_C5_cex :
    Retry.isTransient Cex.err400 = false ∧
    (Retry.withRetryModel (fun _ => .error Cex.err400) 3).calls = 3 ∧
    ¬ (Retry.withRetryModel (fun _ => .error Cex.err400) 3).calls = 1 := by
  refine ⟨by decide, by decide, by decide⟩

/-- C5 (amended): `withRetry` retries **every** failure while attempts
remain, with backoff delays `400·(i+1)²` ms (400, 1600, …); the transient
status list (429/500/502/503/504) only determines whether one more
backoff sleep precedes the rethrow after the final attempt.  A success at
attempt `i` stops the loop with `i+1` calls; if all three attempts fail,
the third attempt's error is thrown after exactly 3 calls, transient or
not. -/
theorem claim_C5 (f : Nat → Except JVal JVal) :
    (∀ e0 e1 e2, f 0 = .error e0 → f 1 = .error e1 → f 2 = .error e2 →
      Retry.withRetryModel f 3 =
        { result := .error e2, calls := 3,
          delays := if Retry.isTransient e2 then [400, 1600, 3600] else [400, 1600] }) ∧
    (∀ v, f 0 = .ok v →
      Retry.withRetryModel f 3 = { result := .ok v, calls := 1, delays := [] }) ∧
    (∀ e0 v, f 0 = .error e0 → f 1 = .ok v →
      Retry.withRetryModel f 3 = { result := .ok v, calls := 2, delays := [400] }) ∧
    (∀ e0 e1 v, f 0 = .error e0 → f 1 = .error e1 → f 2 = .ok v →
      Retry.withRetryModel f 3 = { result := .ok v, calls := 3, delays := [400, 1600] }) := by
  refine ⟨?_, ?_, ?_, ?_⟩
  · intro e0 e1 e2 h0 h1 h2
    by_cases ht : Retry.isTransient e2
    · simp [Retry.withRetryModel, Retry.withRetryAux, h0, h1, h2, ht]
    · simp [Retry.withRetryModel, Retry.withRetryAux, h0, h1, h2, ht]
  · intro v h0
    simp [Retry.withRetryModel, Retry.withRetryAux, h0]
  · intro e0 v h0 h1
    simp [Retry.withRetryModel, Retry.withRetryAux, h0, h1]
  · intro e0 e1 v h0 h1 h2
    simp [Retry.withRetryModel, Retry.withRetryAux, h0, h1, h2]

/-- C5 witness: the amended theorem applied to the constant HTTP-400
failure. -/
theorem claim_C5_witness :
    Retry.withRetryModel (fun _ => .error Cex.err400) 3 =
      { result := .error Cex.err400, calls := 3, delays := [400, 1600] } := by
  have h := (claim_C5 (fun _ => .error Cex.err400)).1 Cex.err400 Cex.err400 Cex.err400 rfl rfl rfl
  rw [h]
  simp [show Retry.isTransient Cex.err400 = false from by decide]


set_option maxRecDepth 4000 in
/-- C10 counterexample: for a successful call that returns unusable
(non-JSON) text, `analyze` does **not** take the fallback path —
`ensureJsonString` substitutes the `emptyPayload` object (agent-1 lines
225–256), so the stage resolves with confidence `0.8` (not `0.3`) and no
`metadata.fallback` flag. -/
theorem claim_C10_cex :
    (DomainClassifier.analyze {} (.resolve true (some "not json") none)).confidence =
      some (mkJsNum 4 5) ∧
    (DomainClassifier.analyze {} (.resolve true (some "not json") none)).metadata.get
      "fallback" = .undef ∧
    ¬ (DomainClassifier.analyze {} (.resolve true (some "not json") none)).confidence =
      some (mkJsNum 3 10) := by
  refine ⟨by decide, by decide, by decide⟩

set_option maxRecDepth 4000 in
/-- C10 (amended): the classification stage never rejects — `analyze` is
a total function into `AgentResult`.  The deterministic fallback
(confidence exactly `0.3`, `metadata.fallback = true`, payload computed
from table and measure names alone) is produced exactly when the `try`
body throws: when the call itself rejects, reports `success = false`,
returns no/empty data, or returns a payload whose `stakeholders` fields
are truthy non-iterables that throw at the array spread (agent-1 lines
56–60); when the `try` body finishes, its result is returned as is — in
particular a call that succeeds with unusable non-JSON text resolves
through the `emptyPayload` substitution (see the counterexample). -/
theorem claim_C10 :
    (∀ ctx e, DomainClassifier.analyze ctx (.reject e) =
        DomainClassifier.catchResult ctx ((e.get "message").jsOr (.str (jsToString e)))) ∧
    (∀ ctx d e, DomainClassifier.analyze ctx (.resolve false d e) =
        DomainClassifier.catchResult ctx (.str ("Claude API failed: " ++
          jsToString (match e with | some m => JVal.str m | none => JVal.undef)))) ∧
    (∀ ctx e, DomainClassifier.analyze ctx (.resolve true none e) =
        DomainClassifier.catchResult ctx (.str ("Claude API failed: " ++
          jsToString (match e with | some m => JVal.str m | none => JVal.undef)))) ∧
    (∀ ctx call e, DomainClassifier.analyzeTry ctx call = .error e →
        DomainClassifier.analyze ctx call =
          DomainClassifier.catchResult ctx ((e.get "message").jsOr
            (.str (jsToString e)))) ∧
    (∀ ctx call r, DomainClassifier.analyzeTry ctx call = .ok r →
        DomainClassifier.analyze ctx call = r) ∧
    (∀ ctx reason,
        (DomainClassifier.catchResult ctx reason).confidence = some (mkJsNum 3 10) ∧
        (DomainClassifier.catchResult ctx reason).metadata.get "fallback" = .bool true ∧
        (DomainClassifier.catchResult ctx reason).analysis =
          .str ((jsonStringify (DomainClassifier.fallbackFromNames
            (DomainClassifier.tblNames ctx) (DomainClassifier.measNames ctx))).getD "")) ∧
    (∀ ctx ctx' reason reason',
        DomainClassifier.tblNames ctx = DomainClassifier.tblNames ctx' →
        DomainClassifier.measNames ctx = DomainClassifier.measNames ctx' →
        (DomainClassifier.catchResult ctx reason).analysis =
          (DomainClassifier.catchResult ctx' reason').analysis) ∧
    (DomainClassifier.analyzeTry {} (.resolve true (some "\x7b\"stakeholders\":\x7b\"primary\":1\x7d\x7d") none) =
        .error (.mkObj [("message", .str "value is not iterable")]) ∧
      (DomainClassifier.analyze {} (.resolve true (some "\x7b\"stakeholders\":\x7b\"primary\":1\x7d\x7d") none)).confidence =
        some (mkJsNum 3 10) ∧
      (DomainClassifier.analyze {} (.resolve true (some "\x7b\"stakeholders\":\x7b\"primary\":1\x7d\x7d") none)).metadata.get
        "fallback" = .bool true) := by
  have hana : ∀ ctx reason, (DomainClassifier.catchResult ctx reason).analysis =
      .str ((jsonStringify (DomainClassifier.fallbackFromNames
        (DomainClassifier.tblNames ctx) (DomainClassifier.measNames ctx))).getD "") :=
    fun _ _ => rfl
  refine ⟨?_, ?_, ?_, ?_, ?_, ?_, ?_, by decide, by decide, by decide⟩
  · intro ctx e
    simp [DomainClassifier.analyze, DomainClassifier.analyzeTry, Bind.bind, Except.bind]
  · intro ctx d e
    have hmsg : ∀ x : String, "Claude API failed: " ++ x ≠ "" :=
      fun x => strAppend_left_ne_empty _ _ (by decide)
    cases d with
    | none =>
      simp [DomainClassifier.analyze, DomainClassifier.analyzeTry, Bind.bind, Except.bind,
        JVal.get, JVal.mkObj, JObj.ofList, JObj.find, JVal.jsOr, JVal.truthy, hmsg]
    | some s =>
      by_cases hs : s = "" <;>
        simp [DomainClassifier.analyze, DomainClassifier.analyzeTry, Bind.bind, Except.bind,
          JVal.get, JVal.mkObj, JObj.ofList, JObj.find, JVal.jsOr, JVal.truthy, hmsg, hs]
  · intro ctx e
    have hmsg : ∀ x : String, "Claude API failed: " ++ x ≠ "" :=
      fun x => strAppend_left_ne_empty _ _ (by decide)
    simp [DomainClassifier.analyze, DomainClassifier.analyzeTry, Bind.bind, Except.bind,
      JVal.get, JVal.mkObj, JObj.ofList, JObj.find, JVal.jsOr, JVal.truthy, hmsg]
  · intro ctx call e h
    simp only [DomainClassifier.analyze, h]
  · intro ctx call r h
    simp only [DomainClassifier.analyze, h]
  · intro ctx reason
    refine ⟨rfl, ?_, hana ctx reason⟩
    simp [DomainClassifier.catchResult, JVal.get, JVal.mkObj, JObj.ofList, JObj.find]
  · intro ctx ctx' reason reason' h1 h2
    rw [hana, hana, h1, h2]

/-- C10 witness: the amended theorem's conclusions instantiated at
concrete contexts and calls, including the general catch rule at a
concrete rejection. -/
theorem claim_C10_witness :
    DomainClassifier.analyze {} (.resolve false none (some "boom")) =
      DomainClassifier.catchResult {} (.str "Claude API failed: boom") ∧
    DomainClassifier.analyze {} (.reject Cex.err400) =
      DomainClassifier.catchResult {}
        ((Cex.err400.get "message").jsOr (.str (jsToString Cex.err400))) ∧
    (DomainClassifier.catchResult {} (.str "x")).analysis =
      (DomainClassifier.catchResult { columns := [Cex.colCustomerID] } (.str "y")).analysis := by
  refine ⟨?_, ?_, ?_⟩
  · exact claim_C10.2.1 {} none (some "boom")
  · exact claim_C10.2.2.2.1 {} (.reject Cex.err400) Cex.err400 rfl
  · exact claim_C10.2.2.2.2.2.2.1 {} { columns := [Cex.colCustomerID] } (.str "x")
      (.str "y") rfl rfl

/-- A three-element list is a suffix exactly when the reverse starts with
the reversed pattern. -/
theorem suffix3_iff_rev (a b c : Char) (L : List Char) :
    ([a, b, c] <:+ L) ↔ ∃ r, L.reverse = c :: b :: a :: r := by
  constructor
  · rintro ⟨t, ht⟩
    exact ⟨t.reverse, by rw [← ht]; simp⟩
  · rintro ⟨r, hr⟩
    refine ⟨r.reverse, ?_⟩
    have hx := congrArg List.reverse hr
    simpa using hx.symm

/-- A four-element list is a suffix exactly when the reverse starts with
the reversed pattern. -/
theorem suffix4_iff_rev (a b c d : Char) (L : List Char) :
    ([a, b, c, d] <:+ L) ↔ ∃ r, L.reverse = d :: c :: b :: a :: r := by
  constructor
  · rintro ⟨t, ht⟩
    exact ⟨t.reverse, by rw [← ht]; simp⟩
  · rintro ⟨r, hr⟩
    refine ⟨r.reverse, ?_⟩
    have hx := congrArg List.reverse hr
    simpa using hx.symm

/-- C9 counterexample: `CustomerID` ends with `id` case-insensitively,
yet the normalizer does not mark it as a key — the source suffix test is
`/[_\s](id|key)$/i` (agent-0 line 139), which demands a separator before
the suffix. -/
theorem claim_C9_cex :
    specEndsIdKey "CustomerID" = true ∧
    (CSVParserAgent.normaliseColumnRow Cex.colCustomerID).isKey = false := by
  refine ⟨by decide, by decide⟩

/-- C9 (amended): `isKey` is the raw key flag, or the word test
`/\b(id|key)\b/i` on the picked name, or the suffix test
`/[_\s](id|key)$/i` — the latter holds exactly when the lower-cased name
ends with `id` or `key` **preceded by an underscore or whitespace
character**; `Customer_ID` and `Customer Key` qualify, a bare `CustomerID`
does not. -/
theorem claim_C9 :
    (∀ c : JVal, (CSVParserAgent.normaliseColumnRow c).isKey =
        (((c.get "isKey").nullish (c.get "IsKey")).truthy ||
         CSVParserAgent.idKeyWordTest (CSVParserAgent.pickKeys c ["name", "ColumnName"]) ||
         CSVParserAgent.idKeySuffixTest (CSVParserAgent.pickKeys c ["name", "ColumnName"]))) ∧
    (∀ name : String, CSVParserAgent.idKeySuffixTest name = true ↔
        ∃ sep : Char, (sep = '_' ∨ jsWs sep = true) ∧
          ([sep, 'i', 'd'] <:+ (lowerS name).data ∨
           [sep, 'k', 'e', 'y'] <:+ (lowerS name).data)) ∧
    (CSVParserAgent.normaliseColumnRow Cex.colCustomerUnderscoreID).isKey = true ∧
    (CSVParserAgent.normaliseColumnRow Cex.colCustomerSpaceKey).isKey = true := by
  refine ⟨fun c => rfl, ?_, by decide, by decide⟩
  intro name
  unfold CSVParserAgent.idKeySuffixTest
  constructor
  · intro h
    split at h
    next c rest heq =>
      refine ⟨c, by simpa using h, Or.inl ?_⟩
      exact (suffix3_iff_rev c 'i' 'd' _).mpr ⟨rest, heq⟩
    next c rest heq =>
      refine ⟨c, by simpa using h, Or.inr ?_⟩
      exact (suffix4_iff_rev c 'k' 'e' 'y' _).mpr ⟨rest, heq⟩
    next => simp at h
  · rintro ⟨sep, hsep, hsuf | hsuf⟩
    · obtain ⟨r, hr⟩ := (suffix3_iff_rev sep 'i' 'd' _).mp hsuf
      rw [hr]
      rcases hsep with h | h
      · subst h; simp
      · simp [h]
    · obtain ⟨r, hr⟩ := (suffix4_iff_rev sep 'k' 'e' 'y' _).mp hsuf
      rw [hr]
      rcases hsep with h | h
      · subst h; simp
      · simp [h]

/-- C7 (confirmed): the de-duplicated measure list has pairwise-distinct
lower-cased names; for every key the surviving record is exactly the
first input record with that key; the output is a sublist of the input
(so relative order is preserved); and `normaliseParsed` produces its
measures by exactly this de-duplication of the mapped-and-filtered input
list. -/
theorem claim_C7 :
    (∀ l : List CSVParserAgent.MeasureRec,
        ((CSVParserAgent.dedupMeasures [] l).map fun m => lowerS m.name).Nodup) ∧
    (∀ (l : List CSVParserAgent.MeasureRec) (k : String),
        (CSVParserAgent.dedupMeasures [] l).filter (fun m => lowerS m.name == k) =
          (l.filter fun m => lowerS m.name == k).take 1) ∧
    (∀ l : List CSVParserAgent.MeasureRec,
        (CSVParserAgent.dedupMeasures [] l).Sublist l) ∧
    (∀ raw p, CSVParserAgent.normaliseParsed raw = .ok p →
        ∃ ms, CSVParserAgent.arrOrThrow (raw.get "measures") = .ok ms ∧
          p.measures = CSVParserAgent.dedupMeasures []
            (CSVParserAgent.measureBase ms)) := by
  refine ⟨fun l => CSVParserAgent.dedupMeasures_keys_nodup [] l,
    fun l k => by rw [CSVParserAgent.dedupMeasures_filter]; simp,
    fun l => CSVParserAgent.dedupMeasures_sublist [] l, ?_⟩
  intro raw p h
  unfold CSVParserAgent.normaliseParsed at h
  cases hm : CSVParserAgent.arrOrThrow (raw.get "measures") with
  | error e => rw [hm] at h; simp [Bind.bind, Except.bind] at h
  | ok ms =>
    rw [hm] at h
    cases ht : CSVParserAgent.arrOrThrow (raw.get "tables") with
    | error e => rw [ht] at h; simp [Bind.bind, Except.bind] at h
    | ok ts =>
      rw [ht] at h
      cases hc : CSVParserAgent.arrOrThrow (raw.get "columns") with
      | error e => rw [hc] at h; simp [Bind.bind, Except.bind] at h
      | ok cs =>
        rw [hc] at h
        cases hr : CSVParserAgent.arrOrThrow (raw.get "relationships") with
        | error e => rw [hr] at h; simp [Bind.bind, Except.bind] at h
        | ok rs =>
          rw [hr] at h
          simp [Bind.bind, Except.bind] at h
          exact ⟨ms, rfl, by rw [← h]⟩

/-- C7 witness: the last component of the theorem instantiated at a
concrete raw input. -/
theorem claim_C7_witness :
    ∃ p, CSVParserAgent.normaliseParsed Cex.rawBoth = Except.ok p ∧
      ∃ ms, CSVParserAgent.arrOrThrow (Cex.rawBoth.get "measures") = Except.ok ms ∧
        p.measures = CSVParserAgent.dedupMeasures []
          (CSVParserAgent.measureBase ms) := by
  cases hnp : CSVParserAgent.normaliseParsed Cex.rawBoth with
  | error e =>
    have hok : (CSVParserAgent.normaliseParsed Cex.rawBoth).isOk = true := by decide
    rw [hnp] at hok
    simp [Except.isOk, Except.toBool] at hok
  | ok p => exact ⟨p, rfl, claim_C7.2.2.2 Cex.rawBoth p hnp⟩

/-- C8 (confirmed): `inferKind` is the first-match-wins consumption of
the ordered, case-insensitive rule list percent > ratio > average >
count > sum > time-intelligence with default `other`; it is invariant
under case changes of name and formula; a formula matching both the
percent and the division-call pattern is classified percent, and one
matching both the sum and a time-intelligence pattern is classified
sum. -/
theorem claim_C8 :
    (∀ name expression, MeasureHeuristics.inferKind name expression =
        MeasureHeuristics.specFirstMatch
          (MeasureHeuristics.specKindRules name expression)) ∧
    (∀ n n' e e', lowerS n = lowerS n' →
        lowerS (e.getD "") = lowerS (e'.getD "") →
        MeasureHeuristics.inferKind n e = MeasureHeuristics.inferKind n' e') ∧
    (∀ n e, MeasureHeuristics.percentCond n e = true →
        MeasureHeuristics.ratioCond e = true →
        MeasureHeuristics.inferKind n e = .percent) ∧
    (∀ n e, MeasureHeuristics.percentCond n e = false →
        MeasureHeuristics.ratioCond e = false →
        MeasureHeuristics.avgCond n e = false →
        MeasureHeuristics.countCond n e = false →
        MeasureHeuristics.sumCond n e = true →
        MeasureHeuristics.timeIntelCond e = true →
        MeasureHeuristics.inferKind n e = .sum) := by
  have hspec : ∀ name expression, MeasureHeuristics.inferKind name expression =
      MeasureHeuristics.specFirstMatch
        (MeasureHeuristics.specKindRules name expression) := by
    intro name e
    simp only [MeasureHeuristics.inferKind, MeasureHeuristics.specKindRules,
      MeasureHeuristics.percentCond, MeasureHeuristics.ratioCond,
      MeasureHeuristics.avgCond, MeasureHeuristics.countCond,
      MeasureHeuristics.sumCond, MeasureHeuristics.timeIntelCond]
    by_cases h1 : MeasureHeuristics.percentNameTest (lowerS name) ||
        (MeasureHeuristics.divideCallTest (upperS (e.getD "")) &&
         MeasureHeuristics.hundredTest (upperS (e.getD "")))
    · simp [h1, MeasureHeuristics.specFirstMatch]
    · have h1f : (MeasureHeuristics.percentNameTest (lowerS name) ||
          (MeasureHeuristics.divideCallTest (upperS (e.getD "")) &&
           MeasureHeuristics.hundredTest (upperS (e.getD "")))) = false := by simpa using h1
      obtain ⟨hp, hdh⟩ := Bool.or_eq_false_iff.mp h1f
      by_cases h2 : MeasureHeuristics.divideCallTest (upperS (e.getD ""))
      · rw [h2] at hdh
        simp only [Bool.true_and] at hdh
        simp [hp, hdh, h2, MeasureHeuristics.specFirstMatch]
      · have h2f : MeasureHeuristics.divideCallTest (upperS (e.getD "")) = false := by
          simpa using h2
        by_cases h3 : MeasureHeuristics.averageTestE (upperS (e.getD "")) ||
            MeasureHeuristics.avgNameTest (lowerS name)
        · simp [hp, h2f, h3, MeasureHeuristics.specFirstMatch]
        · have h3f : (MeasureHeuristics.averageTestE (upperS (e.getD "")) ||
              MeasureHeuristics.avgNameTest (lowerS name)) = false := by simpa using h3
          by_cases h4 : MeasureHeuristics.countTestE (upperS (e.getD "")) ||
              MeasureHeuristics.countNameTest (lowerS name)
          · simp [hp, h2f, h3f, h4, MeasureHeuristics.specFirstMatch]
          · have h4f : (MeasureHeuristics.countTestE (upperS (e.getD "")) ||
                MeasureHeuristics.countNameTest (lowerS name)) = false := by simpa using h4
            by_cases h5 : MeasureHeuristics.sumTestE (upperS (e.getD "")) ||
                MeasureHeuristics.totalSumNameTest (lowerS name)
            · simp [hp, h2f, h3f, h4f, h5, MeasureHeuristics.specFirstMatch]
            · have h5f : (MeasureHeuristics.sumTestE (upperS (e.getD "")) ||
                  MeasureHeuristics.totalSumNameTest (lowerS name)) = false := by
                simpa using h5
              by_cases h6 : MeasureHeuristics.timeIntelTestE (upperS (e.getD ""))
              · simp [hp, h2f, h3f, h4f, h5f, h6, MeasureHeuristics.specFirstMatch]
              · have h6f : MeasureHeuristics.timeIntelTestE (upperS (e.getD "")) = false := by
                  simpa using h6
                simp [hp, h2f, h3f, h4f, h5f, h6f, MeasureHeuristics.specFirstMatch]
  refine ⟨hspec, ?_, ?_, ?_⟩
  · intro n n' e e' hn he
    have he2 : upperS (e.getD "") = upperS (e'.getD "") := upperS_congr_of_lowerS he
    simp only [MeasureHeuristics.inferKind, hn, he2]
  · intro n e h1 _
    rw [hspec]
    simp only [MeasureHeuristics.specKindRules, h1, MeasureHeuristics.specFirstMatch]
  · intro n e h1 h2 h3 h4 h5 h6
    rw [hspec]
    simp only [MeasureHeuristics.specKindRules, h1, h2, h3, h4, h5, h6,
      MeasureHeuristics.specFirstMatch]

/-- C8 witness: the precedence and case-invariance components of the
theorem instantiated at concrete measures. -/
theorem claim_C8_witness :
    MeasureHeuristics.inferKind "Margin %" (some "DIVIDE([Profit], [Revenue]) * 100") =
      MeasureHeuristics.MKind.percent ∧
    MeasureHeuristics.inferKind "Sales LY"
      (some "CALCULATE(SUM(Sales[Amt]), DATEADD('Date'[Date], -1, YEAR))") =
      MeasureHeuristics.MKind.sum ∧
    MeasureHeuristics.inferKind "TOTAL SALES" (some "SUM(Sales[Amt])") =
      MeasureHeuristics.inferKind "total sales" (some "sum(sales[amt])") := by
  refine ⟨?_, ?_, ?_⟩
  · exact claim_C8.2.2.1 "Margin %" (some "DIVIDE([Profit], [Revenue]) * 100")
      (by decide) (by decide)
  · exact claim_C8.2.2.2 "Sales LY"
      (some "CALCULATE(SUM(Sales[Amt]), DATEADD('Date'[Date], -1, YEAR))")
      (by decide) (by decide) (by decide) (by decide) (by decide) (by decide)
  · exact claim_C8.2.1 "TOTAL SALES" "total sales" (some "SUM(Sales[Amt])")
      (some "sum(sales[amt])") (by decide) (by decide)

/-- Membership in a conditional singleton forces equality. -/
theorem mem_ite_singleton {α : Type} {r x : α} {c : Prop} [Decidable c]
    (h : r ∈ if c then [x] else []) : r = x := by
  split at h
  · simpa using h
  · simp at h

/-- C4 (confirmed): `heuristicDescribe` is a total function producing
exactly the template record (kind, window, purpose, whenToUse, success
indicators, risks, dependencies); purpose and whenToUse are never empty,
success indicators always number two, every risk is one of the six fixed
messages, every lint finding is one of the six fixed findings, and empty
or whitespace-only input yields no findings. -/
theorem claim_C4 :
    (∀ name expression,
        MeasureHeuristics.heuristicDescribe name expression =
          { name := name
            kind := MeasureHeuristics.inferKind name expression
            window := MeasureHeuristics.extractWindow expression
            purpose := MeasureHeuristics.generatePurpose name
              (MeasureHeuristics.inferKind name expression)
              (MeasureHeuristics.extractWindow expression)
            whenToUse := MeasureHeuristics.generateWhenToUse
              (MeasureHeuristics.inferKind name expression)
              (MeasureHeuristics.extractWindow expression)
            successIndicators := MeasureHeuristics.generateSuccessIndicators
              (MeasureHeuristics.inferKind name expression)
            risks := MeasureHeuristics.detectRisks expression
            dependencies := MeasureHeuristics.extractDependencies expression }) ∧
    (∀ name expression,
        (MeasureHeuristics.heuristicDescribe name expression).purpose ≠ "" ∧
        (MeasureHeuristics.heuristicDescribe name expression).whenToUse ≠ "" ∧
        (MeasureHeuristics.heuristicDescribe name expression).successIndicators.length
          = 2) ∧
    (∀ expression, ∀ r ∈ MeasureHeuristics.detectRisks expression,
        r ∈ [MeasureHeuristics.riskMsg1, MeasureHeuristics.riskMsg2,
             MeasureHeuristics.riskMsg3, MeasureHeuristics.riskMsg4,
             MeasureHeuristics.riskMsg5, MeasureHeuristics.riskMsg6]) ∧
    (∀ expression, ∀ f ∈ DaxLint.lintDax expression,
        f ∈ [DaxLint.finding1, DaxLint.finding2, DaxLint.finding3,
             DaxLint.finding4, DaxLint.finding5, DaxLint.finding6]) ∧
    (DaxLint.lintDax (some "") = [] ∧ DaxLint.lintDax (some "   ") = [] ∧
     DaxLint.lintDax none = []) := by
  refine ⟨fun name e => rfl, ?_, ?_, ?_, by decide, by decide, by decide⟩
  · intro name e
    refine ⟨?_, ?_, ?_⟩
    · show MeasureHeuristics.generatePurpose name _ _ ≠ ""
      unfold MeasureHeuristics.generatePurpose
      cases MeasureHeuristics.inferKind name e <;>
        exact strAppend_right_ne_empty _ _ (by decide)
    · show MeasureHeuristics.generateWhenToUse _ _ ≠ ""
      unfold MeasureHeuristics.generateWhenToUse
      cases MeasureHeuristics.inferKind name e <;>
        first
          | exact strAppend_right_ne_empty _ _ (by decide)
          | simp
    · show (MeasureHeuristics.generateSuccessIndicators _).length = 2
      unfold MeasureHeuristics.generateSuccessIndicators
      cases MeasureHeuristics.inferKind name e <;> rfl
  · intro e r hr
    unfold MeasureHeuristics.detectRisks at hr
    simp only [List.mem_append] at hr
    rcases hr with ((((h | h) | h) | h) | h) | h <;> rw [mem_ite_singleton h] <;> simp
  · intro e f hf
    simp only [DaxLint.lintDax] at hf
    split at hf
    · simp at hf
    · simp only [List.mem_append] at hf
      rcases hf with ((((h | h) | h) | h) | h) | h <;> rw [mem_ite_singleton h] <;> simp

/-- C4 witness: the closure components instantiated at concrete
formulas. -/
theorem claim_C4_witness :
    MeasureHeuristics.riskMsg1 ∈
      [MeasureHeuristics.riskMsg1, MeasureHeuristics.riskMsg2,
       MeasureHeuristics.riskMsg3, MeasureHeuristics.riskMsg4,
       MeasureHeuristics.riskMsg5, MeasureHeuristics.riskMsg6] ∧
    DaxLint.finding3 ∈
      [DaxLint.finding1, DaxLint.finding2, DaxLint.finding3,
       DaxLint.finding4, DaxLint.finding5, DaxLint.finding6] := by
  constructor
  · exact claim_C4.2.2.1 (some "Sales/Cost") MeasureHeuristics.riskMsg1 (by decide)
  · exact claim_C4.2.2.2.1 (some "COUNTAX(T, TRUE)") DaxLint.finding3 (by decide)

/-! ### Renormalisation round-trip lemmas -/

theorem measureRow_roundtrip (v : JVal) :
    CSVParserAgent.normaliseMeasureRow (CSVParserAgent.encodeMeasure
      (CSVParserAgent.normaliseMeasureRow v)) = CSVParserAgent.normaliseMeasureRow v := by
  simp [CSVParserAgent.normaliseMeasureRow, CSVParserAgent.encodeMeasure,
    CSVParserAgent.pickKeys, JVal.get, JVal.mkObj, JObj.ofList, JObj.find,
    JVal.nullish, jsToString, strTrim_idem]

theorem tableRow_roundtrip (v : JVal) :
    CSVParserAgent.normaliseTableRow (CSVParserAgent.encodeTable
      (CSVParserAgent.normaliseTableRow v)) = CSVParserAgent.normaliseTableRow v := by
  simp [CSVParserAgent.normaliseTableRow, CSVParserAgent.encodeTable,
    CSVParserAgent.pickKeys, CSVParserAgent.toNumber, JVal.get, JVal.mkObj, JObj.ofList,
    JObj.find, JVal.nullish, JVal.truthy, jsToNumber, jsToString, strTrim_idem]

/-- Re-adding an already-implied disjunct changes nothing. -/
theorem bool_or_or_absorb (a b c : Bool) : ((a || b || c) || b || c) = (a || b || c) := by
  cases a <;> cases b <;> cases c <;> rfl

theorem columnRow_roundtrip (v : JVal) :
    CSVParserAgent.normaliseColumnRow (CSVParserAgent.encodeColumn
      (CSVParserAgent.normaliseColumnRow v)) = CSVParserAgent.normaliseColumnRow v := by
  simp only [CSVParserAgent.normaliseColumnRow, CSVParserAgent.encodeColumn,
    CSVParserAgent.pickKeys, JVal.get, JVal.mkObj, JObj.ofList, JObj.find,
    JVal.nullish, JVal.truthy, jsToString, strTrim_idem]
  simp [strTrim_idem]
  exact bool_or_or_absorb _ _ _

theorem cardinality_toStr_roundtrip (c : CSVParserAgent.Cardinality) :
    CSVParserAgent.normaliseCardinality (.str c.toStr) = c := by
  cases c <;> decide

theorem relationshipRow_roundtrip (v : JVal) :
    CSVParserAgent.normaliseRelationshipRow (CSVParserAgent.encodeRelationship
      (CSVParserAgent.normaliseRelationshipRow v)) =
    { CSVParserAgent.normaliseRelationshipRow v with direction := .single } := by
  simp [CSVParserAgent.normaliseRelationshipRow, CSVParserAgent.encodeRelationship,
    CSVParserAgent.pickKeys, JVal.get, JVal.mkObj, JObj.ofList, JObj.find,
    JVal.nullish, JVal.jsOr, JVal.truthy, jsToString, strTrim_idem,
    cardinality_toStr_roundtrip, CSVParserAgent.normaliseDirection]
  refine ⟨⟨by decide, by decide⟩, by decide⟩

theorem arrOrThrow_mkArr (l : List JVal) :
    CSVParserAgent.arrOrThrow (.mkArr l) = .ok l := by
  simp [CSVParserAgent.arrOrThrow, JVal.mkArr, JVal.jsOr, JVal.truthy, JArr.toList_ofList]

/-- Eliminate a successful `normaliseParsed` into its four array reads
and its record shape. -/
theorem normaliseParsed_ok_elim {raw : JVal} {p : CSVParserAgent.ParsedData}
    (h : CSVParserAgent.normaliseParsed raw = .ok p) :
    ∃ ms ts cs rs,
      CSVParserAgent.arrOrThrow (raw.get "measures") = .ok ms ∧
      CSVParserAgent.arrOrThrow (raw.get "tables") = .ok ts ∧
      CSVParserAgent.arrOrThrow (raw.get "columns") = .ok cs ∧
      CSVParserAgent.arrOrThrow (raw.get "relationships") = .ok rs ∧
      p = { measures := CSVParserAgent.dedupMeasures [] (CSVParserAgent.measureBase ms)
            tables := (ts.map CSVParserAgent.normaliseTableRow).filter fun t => t.name ≠ ""
            columns := (cs.map CSVParserAgent.normaliseColumnRow).filter fun c =>
              c.tableName ≠ "" && c.name ≠ ""
            relationships := (rs.map CSVParserAgent.normaliseRelationshipRow).filter fun r =>
              r.fromTable ≠ "" && r.fromColumn ≠ "" && r.toTable ≠ "" && r.toColumn ≠ ""
            metadata := (raw.get "metadata").jsOr (.mkObj []) } := by
  unfold CSVParserAgent.normaliseParsed at h
  cases hm : CSVParserAgent.arrOrThrow (raw.get "measures") with
  | error e => rw [hm] at h; simp [Bind.bind, Except.bind] at h
  | ok ms =>
    rw [hm] at h
    cases ht : CSVParserAgent.arrOrThrow (raw.get "tables") with
    | error e => rw [ht] at h; simp [Bind.bind, Except.bind] at h
    | ok ts =>
      rw [ht] at h
      cases hc : CSVParserAgent.arrOrThrow (raw.get "columns") with
      | error e => rw [hc] at h; simp [Bind.bind, Except.bind] at h
      | ok cs =>
        rw [hc] at h
        cases hr : CSVParserAgent.arrOrThrow (raw.get "relationships") with
        | error e => rw [hr] at h; simp [Bind.bind, Except.bind] at h
        | ok rs =>
          rw [hr] at h
          simp only [Bind.bind, Except.bind] at h
          exact ⟨ms, ts, cs, rs, rfl, rfl, rfl, rfl, (Except.ok.inj h).symm⟩

/-- Renormalising the measures of a first pass reproduces them. -/
theorem measures_renorm (ms : List JVal) :
    CSVParserAgent.dedupMeasures [] (CSVParserAgent.measureBase
      ((CSVParserAgent.dedupMeasures [] (CSVParserAgent.measureBase ms)).map
        CSVParserAgent.encodeMeasure)) =
    CSVParserAgent.dedupMeasures [] (CSVParserAgent.measureBase ms) := by
  have hmem : ∀ m ∈ CSVParserAgent.dedupMeasures [] (CSVParserAgent.measureBase ms),
      (∃ v, m = CSVParserAgent.normaliseMeasureRow v) ∧ m.name ≠ "" := by
    intro m hm
    have hmb : m ∈ CSVParserAgent.measureBase ms :=
      (CSVParserAgent.dedupMeasures_sublist [] _).mem hm
    unfold CSVParserAgent.measureBase at hmb
    rw [List.mem_filter] at hmb
    obtain ⟨hmap, hname⟩ := hmb
    obtain ⟨v, _, hveq⟩ := List.mem_map.mp hmap
    exact ⟨⟨v, hveq.symm⟩, by simpa using hname⟩
  have hnodup : ((CSVParserAgent.dedupMeasures [] (CSVParserAgent.measureBase ms)).map
      fun m => lowerS m.name).Nodup := CSVParserAgent.dedupMeasures_keys_nodup [] _
  generalize hl : CSVParserAgent.dedupMeasures [] (CSVParserAgent.measureBase ms) = l
    at hmem hnodup ⊢
  unfold CSVParserAgent.measureBase
  rw [List.map_map]
  have hmap : l.map (CSVParserAgent.normaliseMeasureRow ∘ CSVParserAgent.encodeMeasure) = l := by
    nth_rewrite 2 [show l = l.map id from (List.map_id _).symm]
    apply List.map_congr_left
    intro m hm
    obtain ⟨⟨v, hv⟩, _⟩ := hmem m hm
    subst hv
    exact measureRow_roundtrip v
  rw [hmap]
  rw [List.filter_eq_self.mpr (fun m hm => by
    obtain ⟨_, hname⟩ := hmem m hm
    simpa using hname)]
  exact CSVParserAgent.dedupMeasures_of_nodup [] l hnodup (fun m _ => by simp)

theorem tables_renorm (ts : List JVal) :
    ((((ts.map CSVParserAgent.normaliseTableRow).filter fun t => t.name ≠ "").map
        CSVParserAgent.encodeTable).map CSVParserAgent.normaliseTableRow).filter
      (fun t => t.name ≠ "") =
    (ts.map CSVParserAgent.normaliseTableRow).filter fun t => t.name ≠ "" := by
  have hmem : ∀ t ∈ (ts.map CSVParserAgent.normaliseTableRow).filter
      (fun t => decide (t.name ≠ "")),
      (∃ v, t = CSVParserAgent.normaliseTableRow v) ∧ decide (t.name ≠ "") = true := by
    intro t ht
    rw [List.mem_filter] at ht
    obtain ⟨hmap, hname⟩ := ht
    obtain ⟨v, _, hveq⟩ := List.mem_map.mp hmap
    exact ⟨⟨v, hveq.symm⟩, hname⟩
  generalize hl : (ts.map CSVParserAgent.normaliseTableRow).filter
      (fun t => decide (t.name ≠ "")) = l at hmem ⊢
  rw [List.map_map]
  have hmap : l.map (CSVParserAgent.normaliseTableRow ∘ CSVParserAgent.encodeTable) = l := by
    nth_rewrite 2 [show l = l.map id from (List.map_id _).symm]
    apply List.map_congr_left
    intro t ht
    obtain ⟨⟨v, hv⟩, _⟩ := hmem t ht
    subst hv
    exact tableRow_roundtrip v
  rw [hmap]
  exact List.filter_eq_self.mpr fun t ht => (hmem t ht).2

theorem columns_renorm (cs : List JVal) :
    ((((cs.map CSVParserAgent.normaliseColumnRow).filter fun c =>
          c.tableName ≠ "" && c.name ≠ "").map
        CSVParserAgent.encodeColumn).map CSVParserAgent.normaliseColumnRow).filter
      (fun c => c.tableName ≠ "" && c.name ≠ "") =
    (cs.map CSVParserAgent.normaliseColumnRow).filter fun c =>
      c.tableName ≠ "" && c.name ≠ "" := by
  have hmem : ∀ c ∈ (cs.map CSVParserAgent.normaliseColumnRow).filter
      (fun c => c.tableName ≠ "" && c.name ≠ ""),
      (∃ v, c = CSVParserAgent.normaliseColumnRow v) ∧
        (c.tableName ≠ "" && c.name ≠ "") = true := by
    intro c hc
    rw [List.mem_filter] at hc
    obtain ⟨hmap, hok⟩ := hc
    obtain ⟨v, _, hveq⟩ := List.mem_map.mp hmap
    exact ⟨⟨v, hveq.symm⟩, hok⟩
  generalize hl : (cs.map CSVParserAgent.normaliseColumnRow).filter
      (fun c => c.tableName ≠ "" && c.name ≠ "") = l at hmem ⊢
  rw [List.map_map]
  have hmap : l.map (CSVParserAgent.normaliseColumnRow ∘ CSVParserAgent.encodeColumn) = l := by
    nth_rewrite 2 [show l = l.map id from (List.map_id _).symm]
    apply List.map_congr_left
    intro c hc
    obtain ⟨⟨v, hv⟩, _⟩ := hmem c hc
    subst hv
    exact columnRow_roundtrip v
  rw [hmap]
  exact List.filter_eq_self.mpr fun c hc => (hmem c hc).2

theorem relationships_renorm (rs : List JVal) :
    ((((rs.map CSVParserAgent.normaliseRelationshipRow).filter fun r =>
          r.fromTable ≠ "" && r.fromColumn ≠ "" && r.toTable ≠ "" && r.toColumn ≠ "").map
        CSVParserAgent.encodeRelationship).map CSVParserAgent.normaliseRelationshipRow).filter
      (fun r => r.fromTable ≠ "" && r.fromColumn ≠ "" && r.toTable ≠ "" && r.toColumn ≠ "") =
    ((rs.map CSVParserAgent.normaliseRelationshipRow).filter fun r =>
        r.fromTable ≠ "" && r.fromColumn ≠ "" && r.toTable ≠ "" && r.toColumn ≠ "").map
      fun r => { r with direction := .single } := by
  have hmem : ∀ r ∈ (rs.map CSVParserAgent.normaliseRelationshipRow).filter
      (fun r => r.fromTable ≠ "" && r.fromColumn ≠ "" && r.toTable ≠ "" && r.toColumn ≠ ""),
      (∃ v, r = CSVParserAgent.normaliseRelationshipRow v) ∧
        (r.fromTable ≠ "" && r.fromColumn ≠ "" && r.toTable ≠ "" && r.toColumn ≠ "") = true := by
    intro r hr
    rw [List.mem_filter] at hr
    obtain ⟨hmap, hok⟩ := hr
    obtain ⟨v, _, hveq⟩ := List.mem_map.mp hmap
    exact ⟨⟨v, hveq.symm⟩, hok⟩
  generalize hl : (rs.map CSVParserAgent.normaliseRelationshipRow).filter
      (fun r => r.fromTable ≠ "" && r.fromColumn ≠ "" && r.toTable ≠ "" && r.toColumn ≠ "") = l
    at hmem ⊢
  rw [List.map_map]
  have hmap : l.map (CSVParserAgent.normaliseRelationshipRow ∘
      CSVParserAgent.encodeRelationship) =
      l.map fun r => { r with direction := CSVParserAgent.Direction.single } := by
    apply List.map_congr_left
    intro r hr
    obtain ⟨⟨v, hv⟩, _⟩ := hmem r hr
    subst hv
    exact relationshipRow_roundtrip v
  rw [hmap, List.filter_map]
  congr 1
  exact List.filter_eq_self.mpr fun r hr => (hmem r hr).2

theorem jsOr_mkObj_idem (a : JVal) :
    (a.jsOr (.obj .nil)).jsOr (.obj .nil) = a.jsOr (.obj .nil) := by
  by_cases h : a.truthy = true
  · simp [JVal.jsOr, h]
  · have hf : a.truthy = false := by simpa using h
    have hobj : (JVal.obj JObj.nil).truthy = true := by decide
    simp [JVal.jsOr, hf, hobj]

/-- A second normalisation pass reproduces the first one except that
every relationship direction collapses to `Single`. -/
theorem normaliseParsed_renorm {raw : JVal} {p : CSVParserAgent.ParsedData}
    (h : CSVParserAgent.normaliseParsed raw = .ok p) :
    CSVParserAgent.normaliseParsed (CSVParserAgent.encodeParsed p) =
      .ok (directionErased p) := by
  obtain ⟨ms, ts, cs, rs, hm, ht, hc, hr, hp⟩ := normaliseParsed_ok_elim h
  subst hp
  unfold CSVParserAgent.normaliseParsed CSVParserAgent.encodeParsed
  simp only [JVal.get, JVal.mkObj, JObj.ofList, JObj.find, reduceIte,
    String.reduceEq, reduceCtorEq, Option.getD_some, Option.getD_none]
  rw [arrOrThrow_mkArr, arrOrThrow_mkArr, arrOrThrow_mkArr, arrOrThrow_mkArr]
  simp only [Bind.bind, Except.bind]
  rw [measures_renorm, tables_renorm, columns_renorm, relationships_renorm]
  simp [directionErased, jsOr_mkObj_idem]

theorem list_map_eq_self_iff {α : Type} (f : α → α) (l : List α) :
    l.map f = l ↔ ∀ x ∈ l, f x = x := by
  induction l with
  | nil => simp
  | cons x t ih => simp [ih]

set_option maxRecDepth 4000 in
/-- C6 counterexample: a relationship parsed with
`CrossFilterDirection: "Both"` normalises to direction `Both`, but
renormalising that output yields direction `Single` — the normalised
record stores the direction under `direction`, which the normaliser never
reads (it reads only `crossFilterDirection`/`CrossFilterDirection`,
agent-0 line 160) — so the second pass differs from the first. -/
theorem claim_C6_cex :
    ((CSVParserAgent.normaliseParsed Cex.rawBoth).map fun p =>
        p.relationships.map fun r => r.direction) = .ok [.both] ∧
    (((CSVParserAgent.normaliseParsed Cex.rawBoth).bind fun p =>
        CSVParserAgent.normaliseParsed (CSVParserAgent.encodeParsed p)).map fun p =>
        p.relationships.map fun r => r.direction) = .ok [.single] ∧
    ¬ ((CSVParserAgent.normaliseParsed Cex.rawBoth).bind fun p =>
        CSVParserAgent.normaliseParsed (CSVParserAgent.encodeParsed p)) =
      CSVParserAgent.normaliseParsed Cex.rawBoth := by
  refine ⟨by decide, by decide, by decide⟩

/-- C6 (amended): renormalising a normalised record set reproduces it
**except** that every relationship direction collapses to `Single`;
consequently the second pass equals the first exactly when every
relationship direction in the first pass is already `Single` (measures,
tables, columns and all other relationship fields, including cardinality
and the active flag, do round-trip). -/
theorem claim_C6 :
    (∀ raw p, CSVParserAgent.normaliseParsed raw = .ok p →
        CSVParserAgent.normaliseParsed (CSVParserAgent.encodeParsed p) =
          .ok (directionErased p)) ∧
    (∀ raw p, CSVParserAgent.normaliseParsed raw = .ok p →
        (CSVParserAgent.normaliseParsed (CSVParserAgent.encodeParsed p) = .ok p ↔
          ∀ r ∈ p.relationships, r.direction = CSVParserAgent.Direction.single)) := by
  refine ⟨fun raw p h => normaliseParsed_renorm h, ?_⟩
  intro raw p h
  rw [normaliseParsed_renorm h]
  constructor
  · intro he r hr
    have hde : directionErased p = p := Except.ok.inj he
    have hrel : p.relationships.map
        (fun r => { r with direction := CSVParserAgent.Direction.single }) =
        p.relationships := congrArg CSVParserAgent.ParsedData.relationships hde
    have := (list_map_eq_self_iff _ _).mp hrel r hr
    have hdir := congrArg CSVParserAgent.RelationshipRec.direction this
    exact hdir.symm
  · intro hall
    have hrel : p.relationships.map
        (fun r => { r with direction := CSVParserAgent.Direction.single }) =
        p.relationships := by
      rw [list_map_eq_self_iff]
      intro r hr
      have := hall r hr
      cases r
      simp_all
    unfold directionErased
    rw [hrel]

/-- C6 witness: the amended theorem applied to a raw input whose only
relationship already has direction `Single`. -/
theorem claim_C6_witness :
    ∃ p, CSVParserAgent.normaliseParsed
        (.mkObj [("relationships", .mkArr
          [.mkObj [("fromTable", .str "A"), ("fromColumn", .str "x"),
            ("toTable", .str "B"), ("toColumn", .str "y")]])]) = Except.ok p ∧
      CSVParserAgent.normaliseParsed (CSVParserAgent.encodeParsed p) =
        Except.ok (directionErased p) := by
  cases hnp : CSVParserAgent.normaliseParsed
      (.mkObj [("relationships", .mkArr
        [.mkObj [("fromTable", .str "A"), ("fromColumn", .str "x"),
          ("toTable", .str "B"), ("toColumn", .str "y")]])]) with
  | error e =>
    have hok : (CSVParserAgent.normaliseParsed
        (.mkObj [("relationships", .mkArr
          [.mkObj [("fromTable", .str "A"), ("fromColumn", .str "x"),
            ("toTable", .str "B"), ("toColumn", .str "y")]])])).isOk = true := by decide
    rw [hnp] at hok
    simp [Except.isOk, Except.toBool] at hok
  | ok p => exact ⟨p, rfl, (claim_C6.1 _ p hnp)⟩

set_option maxRecDepth 4000 in
/-- C1 counterexample: with two parsed measures, a generation-stage
payload carrying a single (non-empty) `measures` entry passes through the
coercion entry-wise — the final array has 1 entry, not 2 — and the
orchestrator safety patch leaves the under-produced payload unchanged
(both rebuild paths fire only when the stage array is absent or empty). -/
theorem claim_C1_cex :
    Cex.ctx2.measures.length = 2 ∧
    ((ReportSynthesis.coerceSynthesis Cex.stageUnder Cex.inputs0 Cex.ctx2).map fun o =>
        (o.get "measures").elems.length) = .ok 1 ∧
    AgentOrchestrator.safetyPatch Cex.payloadUnder Cex.ctx2 = Cex.payloadUnder ∧
    ((jsonParse Cex.payloadUnder).map fun o => (o.get "measures").elems.length) = some 1 := by
  refine ⟨by decide, by decide, by decide, by decide⟩

/-- C1 (amended): the coercion rebuilds one entry per parsed measure
**only** when the generation stage produced no (or an empty) `measures`
array; a non-empty stage array is kept entry-wise, so its length — not
the parsed count — becomes the report's length.  The safety patch keeps a
non-empty `measures` array untouched as well. -/
theorem claim_C1 :
    (∀ (o : JVal) (ctx : AgentCtx) (ms : List JVal),
        ReportSynthesis.isNonEmptyArr (o.get "measures") = false →
        ReportSynthesis.mapE ReportSynthesis.rebuiltMeasure ctx.measures = .ok ms →
        ReportSynthesis.coerceMeasures o ctx = .ok (o.set "measures" (.mkArr ms)) ∧
          ms.length = ctx.measures.length) ∧
    (∀ (o : JVal) (ctx : AgentCtx) (ms : List JVal),
        ReportSynthesis.isNonEmptyArr (o.get "measures") = true →
        ReportSynthesis.mapE ReportSynthesis.mergedMeasure (o.get "measures").elems = .ok ms →
        ReportSynthesis.coerceMeasures o ctx = .ok (o.set "measures" (.mkArr ms)) ∧
          ms.length = (o.get "measures").elems.length) ∧
    (∀ (fs : JObj) (ctx : AgentCtx),
        ReportSynthesis.isNonEmptyArr ((JVal.obj fs).get "measures") = true →
        (AgentOrchestrator.safetyPatchObj (.obj fs) ctx).get "measures" =
          (JVal.obj fs).get "measures") := by
  refine ⟨?_, ?_, ?_⟩
  · intro o ctx ms hne hmap
    unfold ReportSynthesis.coerceMeasures
    rw [hne]
    simp [hmap, Bind.bind, Except.bind]
    exact ReportSynthesis.mapE_ok_length _ _ _ hmap
  · intro o ctx ms hne hmap
    unfold ReportSynthesis.coerceMeasures
    rw [hne]
    simp [hmap, Bind.bind, Except.bind]
    exact ReportSynthesis.mapE_ok_length _ _ _ hmap
  · intro fs ctx hne
    unfold AgentOrchestrator.safetyPatchObj
    rw [hne]
    simp only [Bool.not_true, Bool.false_eq_true, if_false]
    split
    · exact JVal.get_set_obj_ne fs "tables" "measures" _ (by decide)
    · rfl

/-- C1 witness: both branches of the theorem at concrete inputs — an
empty stage array rebuilt to the two parsed measures, and the
under-producing stage payload kept at one entry. -/
theorem claim_C1_witness :
    (∃ ms, ReportSynthesis.mapE ReportSynthesis.rebuiltMeasure Cex.ctx2.measures = .ok ms ∧
      ReportSynthesis.coerceMeasures (.mkObj []) Cex.ctx2 =
        .ok ((JVal.mkObj []).set "measures" (.mkArr ms)) ∧ ms.length = 2) ∧
    (∃ ms, ReportSynthesis.mapE ReportSynthesis.mergedMeasure
        (Cex.stageUnder.get "measures").elems = .ok ms ∧
      ReportSynthesis.coerceMeasures Cex.stageUnder Cex.ctx2 =
        .ok (Cex.stageUnder.set "measures" (.mkArr ms)) ∧ ms.length = 1) := by
  constructor
  · cases hmap : ReportSynthesis.mapE ReportSynthesis.rebuiltMeasure Cex.ctx2.measures with
    | error e =>
      have hok : (ReportSynthesis.mapE ReportSynthesis.rebuiltMeasure
          Cex.ctx2.measures).isOk = true := by decide
      rw [hmap] at hok
      simp [Except.isOk, Except.toBool] at hok
    | ok ms =>
      obtain ⟨h1, h2⟩ := claim_C1.1 (.mkObj []) Cex.ctx2 ms (by decide) hmap
      exact ⟨ms, rfl, h1, h2⟩
  · cases hmap : ReportSynthesis.mapE ReportSynthesis.mergedMeasure
        (Cex.stageUnder.get "measures").elems with
    | error e =>
      have hok : (ReportSynthesis.mapE ReportSynthesis.mergedMeasure
          (Cex.stageUnder.get "measures").elems).isOk = true := by decide
      rw [hmap] at hok
      simp [Except.isOk, Except.toBool] at hok
    | ok ms =>
      obtain ⟨h1, h2⟩ := claim_C1.2.1 Cex.stageUnder Cex.ctx2 ms (by decide) hmap
      refine ⟨ms, rfl, h1, ?_⟩
      rw [h2]
      decide

/-- C2 counterexample: the generation stage's `tables` entry `Ghost`
(stage-supplied count 5) matches no parsed column, and the coercion
keeps the stage value 5 (`colCounts.get(key) || t.columns || 0`, agent-5
line 462) — while for `SALES` the recomputed case-insensitive count 2
replaces the stage's 99. -/
theorem claim_C2_cex :
    ReportSynthesis.lookupCount (ReportSynthesis.colCounts Cex.ctx2.columns) "ghost" =
      none ∧
    ((Cex.stageTables.get "tables").elems.map fun t => t.get "columns") =
      [.num (some ⟨5, 1⟩), .num (some ⟨99, 1⟩)] ∧
    (((ReportSynthesis.coerceTables Cex.stageTables Cex.ctx2).get "tables").elems.map
        fun t => t.get "columns") = [.num (some ⟨5, 1⟩), .num (some ⟨2, 1⟩)] ∧
    (Cex.ctx2.columns.filter fun c => ReportSynthesis.colKey c == "sales").length = 2 := by
  refine ⟨by decide, by decide, by decide, by decide⟩

/-- C2 (amended): for each reported table the coercion (and the
orchestrator safety patch, which applies the same per-entry rewrite)
stores `colCounts.get(key) || t.columns || 0`: when at least one parsed
column's `tableName` matches the table name case-insensitively, the
recomputed count wins over any stage-supplied value; when **no** parsed
column matches, the stage-supplied truthy `columns` value is kept. -/
theorem claim_C2 :
    (∀ (cols : List JVal) (t : JVal),
        0 < (cols.filter fun c => ReportSynthesis.colKey c ==
          ReportSynthesis.tblKey t).length →
        ReportSynthesis.patchedColumns (ReportSynthesis.colCounts cols) t =
          .num (some (jsNumOfNat (cols.filter fun c => ReportSynthesis.colKey c ==
            ReportSynthesis.tblKey t).length))) ∧
    (∀ (cols : List JVal) (t : JVal),
        (cols.filter fun c => ReportSynthesis.colKey c ==
          ReportSynthesis.tblKey t).length = 0 →
        ReportSynthesis.patchedColumns (ReportSynthesis.colCounts cols) t =
          (t.get "columns").jsOr (.num (some ⟨0, 1⟩))) ∧
    (∀ (o : JVal) (ctx : AgentCtx),
        ReportSynthesis.isNonEmptyArr (o.get "tables") = true →
        ReportSynthesis.coerceTables o ctx =
          o.set "tables" (.mkArr ((o.get "tables").elems.map fun t =>
            .mkObj (ReportSynthesis.setFieldL t.fields "columns"
              (ReportSynthesis.patchedColumns
                (ReportSynthesis.colCounts ctx.columns) t))))) ∧
    (∀ (t : JVal) (cc : List (String × Nat)),
        (JVal.mkObj (ReportSynthesis.setFieldL t.fields "columns"
          (ReportSynthesis.patchedColumns cc t))).get "columns" =
          ReportSynthesis.patchedColumns cc t) := by
  refine ⟨?_, ?_, ?_, ?_⟩
  · intro cols t h
    unfold ReportSynthesis.patchedColumns
    rw [ReportSynthesis.lookupCount_colCounts]
    rw [if_neg (by omega)]
  · intro cols t h
    unfold ReportSynthesis.patchedColumns
    rw [ReportSynthesis.lookupCount_colCounts]
    rw [if_pos h]
  · intro o ctx h
    unfold ReportSynthesis.coerceTables
    rw [h]
    rfl
  · intro t cc
    exact JVal.get_mkObj_setFieldL_same _ _ _

/-- C2 witness: the theorem's two count rules at the two stage entries of
the counterexample payload. -/
theorem claim_C2_witness :
    ReportSynthesis.patchedColumns (ReportSynthesis.colCounts Cex.ctx2.columns)
      (.mkObj [("name", .str "SALES"), ("columns", .num (some ⟨99, 1⟩))]) =
      .num (some (jsNumOfNat 2)) ∧
    ReportSynthesis.patchedColumns (ReportSynthesis.colCounts Cex.ctx2.columns)
      (.mkObj [("name", .str "Ghost"), ("columns", .num (some ⟨5, 1⟩))]) =
      ((JVal.mkObj [("name", .str "Ghost"), ("columns", .num (some ⟨5, 1⟩))]).get
        "columns").jsOr (.num (some ⟨0, 1⟩)) := by
  constructor
  · have h := claim_C2.1 Cex.ctx2.columns
      (.mkObj [("name", .str "SALES"), ("columns", .num (some ⟨99, 1⟩))]) (by decide)
    rw [h]
    decide
  · exact claim_C2.2.1 Cex.ctx2.columns
      (.mkObj [("name", .str "Ghost"), ("columns", .num (some ⟨5, 1⟩))]) (by decide)

/-- C3 (confirmed): a rejected parallel stage settles to its
stage-specific fallback (confidence 0, `fallbackProvided` metadata), the
other two parallel slots are computed from their own stage functions
alone, and a run completes whenever classification, synthesis and polish
succeed — regardless of any parallel-stage rejections — while an
exception escaping any of the sequential stages (classification,
synthesis, or polish) propagates out of the orchestrator unchanged. -/
theorem claim_C3 :
    (∀ t e, AgentOrchestrator.settle t (.error e) = AgentOrchestrator.fallback t e) ∧
    (∀ t v, AgentOrchestrator.settle t (.ok v) = v) ∧
    (∀ t e, (AgentOrchestrator.fallback t e).confidence = some ⟨0, 1⟩ ∧
        (AgentOrchestrator.fallback t e).metadata.get "fallbackProvided" = .bool true) ∧
    (∀ (fns : AgentOrchestrator.StageFns)
        (out2 out3 out4 : AgentCtx → Except JVal AgentResult) (dom : AgentResult)
        (enr : AgentCtx),
        AgentOrchestrator.synthInputsOf
          { fns with agent2 := out2, agent3 := out3, agent4 := out4 } dom enr =
          { domainAnalysis := dom
            businessGlossary := AgentOrchestrator.settle "Business Glossary" (out2 enr)
            dataArchitecture := AgentOrchestrator.settle "Data Architecture" (out3 enr)
            daxAnalysis := AgentOrchestrator.settle "DAX Analysis"
              (if enr.measures.length > 0 then out4 enr
               else .ok AgentOrchestrator.skipDaxResult) }) ∧
    (∀ fns ctx e, fns.agent1 ctx = .error e →
        AgentOrchestrator.orchestrate fns ctx = .error e) ∧
    (∀ fns ctx d enr e,
        AgentOrchestrator.enrichedCtxOf fns ctx = .ok (d, enr) →
        fns.agent5 (AgentOrchestrator.synthInputsOf fns d enr) enr = .error e →
        AgentOrchestrator.orchestrate fns ctx = .error e) ∧
    (∀ fns ctx d enr,
        AgentOrchestrator.enrichedCtxOf fns ctx = .ok (d, enr) →
        ∀ r5, fns.agent5 (AgentOrchestrator.synthInputsOf fns d enr) enr = .ok r5 →
        ∀ so, AgentOrchestrator.normaliseSynthesisObj r5.analysis = .ok so →
        ∀ e, (∀ pin, fns.agent6 pin = .error e) →
        AgentOrchestrator.orchestrate fns ctx = .error e) ∧
    (∀ fns ctx d enr,
        AgentOrchestrator.enrichedCtxOf fns ctx = .ok (d, enr) →
        ∀ r5, fns.agent5 (AgentOrchestrator.synthInputsOf fns d enr) enr = .ok r5 →
        ∀ so, AgentOrchestrator.normaliseSynthesisObj r5.analysis = .ok so →
        (∀ pin, ∃ v, fns.agent6 pin = .ok v) →
        ∃ r, AgentOrchestrator.orchestrate fns ctx = .ok r ∧
          r.businessGlossary =
            AgentOrchestrator.settle "Business Glossary" (fns.agent2 enr) ∧
          r.dataArchitecture =
            AgentOrchestrator.settle "Data Architecture" (fns.agent3 enr) ∧
          r.daxAnalysis = AgentOrchestrator.settle "DAX Analysis"
            (if enr.measures.length > 0 then fns.agent4 enr
             else .ok AgentOrchestrator.skipDaxResult) ∧
          r.reportSynthesis = r5) := by
  refine ⟨fun t e => rfl, fun t v => rfl, ?_, fun fns out2 out3 out4 dom enr => rfl,
    ?_, ?_, ?_, ?_⟩
  · intro t e
    refine ⟨rfl, ?_⟩
    simp [AgentOrchestrator.fallback, JVal.get, JVal.mkObj, JObj.ofList, JObj.find]
  · intro fns ctx e h
    simp [AgentOrchestrator.orchestrate, AgentOrchestrator.enrichedCtxOf, h,
      Bind.bind, Except.bind]
  · intro fns ctx d enr e henr h5
    simp only [AgentOrchestrator.orchestrate, henr, Bind.bind, Except.bind]
    rw [h5]
  · intro fns ctx d enr henr r5 h5 so hso e h6
    simp only [AgentOrchestrator.orchestrate, henr, h5, hso, Bind.bind, Except.bind]
    rw [h6 _]
  · intro fns ctx d enr henr r5 h5 so hso h6
    simp only [AgentOrchestrator.orchestrate, henr, h5, hso, Bind.bind, Except.bind]
    obtain ⟨v6, h6'⟩ := h6 _
    rw [h6']
    exact ⟨_, rfl, rfl, rfl, rfl, rfl⟩

/-- C3 witness: with the glossary and measure-analysis stages rejecting,
the run completes and those two slots carry the stage fallbacks, while
moving the rejection to the classification stage — or to the polish
stage — makes the whole run fail with that error. -/
theorem claim_C3_witness :
    (∃ r, AgentOrchestrator.orchestrate Cex.fnsW Cex.ctx2 = .ok r ∧
      r.businessGlossary = AgentOrchestrator.settle "Business Glossary"
        (Cex.fnsW.agent2 Cex.enrW) ∧
      r.dataArchitecture = AgentOrchestrator.settle "Data Architecture"
        (Cex.fnsW.agent3 Cex.enrW) ∧
      r.daxAnalysis = AgentOrchestrator.settle "DAX Analysis"
        (if Cex.enrW.measures.length > 0 then Cex.fnsW.agent4 Cex.enrW
         else .ok AgentOrchestrator.skipDaxResult) ∧
      r.reportSynthesis = Cex.synthRes0) ∧
    AgentOrchestrator.orchestrate { Cex.fnsW with agent1 := fun _ => .error Cex.err500 }
      Cex.ctx2 = .error Cex.err500 ∧
    AgentOrchestrator.orchestrate { Cex.fnsW with agent6 := fun _ => .error Cex.err400 }
      Cex.ctx2 = .error Cex.err400 := by
  refine ⟨?_, ?_, ?_⟩
  · exact claim_C3.2.2.2.2.2.2.2 Cex.fnsW Cex.ctx2 Cex.domRes0 Cex.enrW (by decide)
      Cex.synthRes0 rfl
      (.mkObj [("overview", .mkObj []), ("measures", .mkArr []),
        ("tables", .mkArr []), ("relationships", .mkArr [])]) (by decide)
      (fun pin => ⟨Cex.polishRes0, rfl⟩)
  · exact claim_C3.2.2.2.2.1 _ Cex.ctx2 Cex.err500 rfl
  · exact claim_C3.2.2.2.2.2.2.1 { Cex.fnsW with agent6 := fun _ => .error Cex.err400 }
      Cex.ctx2 Cex.domRes0 Cex.enrW (by decide) Cex.synthRes0 rfl
      (.mkObj [("overview", .mkObj []), ("measures", .mkArr []),
        ("tables", .mkArr []), ("relationships", .mkArr [])]) (by decide)
      Cex.err400 (fun pin => rfl)
